import Mathlib

/-!
# AdvancedVector: `RawMemory<T>` and `Vector<T>` (src/vector.h)

Shallow embedding of the two class templates of `vector.h`.

Modelling conventions
* `size_t` values are natural numbers.  Results that can leave the range of
  `size_t` (increments, decrements, doublings, the byte count of an
  allocation) are reduced with `size_t` (modulo `2 ^ 64`).  A difference
  `a - b` taken where the source has established `b <= a` is the natural
  difference; the pointer difference `last - first` that bounds a loop counts
  no step when it is negative.
* A block obtained from `operator new` is viewed through its element slots:
  slot `i` holds `some x` when a live object with value `x` sits there and
  `none` when the slot is raw storage.  The block also records the byte count
  that was passed to `operator new`.
* A `T*` into a block is the block together with a slot offset; iterators of a
  vector are offsets from `begin()`, so `begin()` is offset `0` and `end()` is
  offset `size_`.
* What the container consumes from `T` is collected in `Elem T`; which element
  constructions throw during one call, and whether `operator new` throws
  `std::bad_alloc` in it, is a parameter `Faults` of that call.  Assignments
  and destructors of `T` do not throw.
* A block is addressed by slot offset, whatever its byte count.  Where the
  caller chooses the number of slots, the theorems assume that the byte count
  `n * sizeof(T)` is at most `PTRDIFF_MAX` and state that the block was
  requested with exactly that many bytes.
* A call returns what happened (`Outcome`) together with the object after it.
-/

namespace AdvancedVector

/-! ## Machine integers -/

/-- Reduction of an arithmetic result to the 64 bit type `size_t`. -/
def size_t (n : Nat) : Nat := n % 2 ^ 64

/-- Largest value of `ptrdiff_t`; no single object spans more bytes. -/
def PTRDIFF_MAX : Nat := 2 ^ 63 - 1

/-! ## The element type -/

/-- Kind of a thrown object: derived from `std::exception` or not. -/
inductive Exn where
  | std_exception
  | other
  deriving DecidableEq, Repr

/-- Result of a call: normal return, an exception that leaves the call, or a
failed `assert`. -/
inductive Outcome (α : Type) where
  | ok (a : α)
  | threw (e : Exn)
  | assert_failed
  deriving DecidableEq, Repr

/-- Facts about the element type `T` that the templates consult. -/
structure Elem (T : Type) where
  /-- Value of `sizeof(T)`. -/
  sizeof : Nat
  /-- Value of `std::is_nothrow_move_constructible_v<T>`. -/
  is_nothrow_move_constructible : Bool
  /-- Value of `std::is_copy_constructible_v<T>`. -/
  is_copy_constructible : Bool
  /-- Value produced by value-initialisation `T()`. -/
  value_init : T
  /-- Value left in an object after it has been moved from. -/
  moved_from : T → T

/-- Which element constructions throw during one call, and whether the
allocation of the call throws.  Copies and moves are keyed by the offset of
the source element, value-initialisations by the offset of the destination
slot. -/
structure Faults where
  /-- Call of `operator new` for the block the call allocates (a call allocates
  at most one): `some e` when it throws, as `std::bad_alloc` does. -/
  alloc : Option Exn
  /-- Construction of the new element from the caller's arguments. -/
  construct : Option Exn
  /-- Copy construction from the element at the given offset. -/
  copy : Nat → Option Exn
  /-- Move construction from the element at the given offset. -/
  move : Nat → Option Exn
  /-- Value-initialisation of the slot at the given offset. -/
  value_init : Nat → Option Exn

/-- Nothing throws: the allocation is met and every construction returns. -/
def Faults.none : Faults :=
  { alloc := Option.none
    construct := Option.none
    copy := fun _ => Option.none
    move := fun _ => Option.none
    value_init := fun _ => Option.none }

/-- Whether move construction from offset `k` throws: never for a type whose
move constructor is `noexcept`. -/
def move_fault {T : Type} (E : Elem T) (F : Faults) (k : Nat) : Option Exn :=
  if E.is_nothrow_move_constructible then Option.none else F.move k

/-! ## RawMemory -/

/-- Region returned by `operator new`, seen as slots of `T`. -/
structure Block (T : Type) where
  /-- Byte count passed to `operator new`. -/
  bytes : Nat
  /-- Slot contents: `some x` for a live object, `none` for raw storage. -/
  slot : Nat → Option T

/-- Class `RawMemory<T>`: `buffer_` (`none` is `nullptr`) and `capacity_`. -/
structure RawMemory (T : Type) where
  buffer_ : Option (Block T)
  capacity_ : Nat

namespace RawMemory

variable {T : Type}

/-- `RawMemory() = default` : `buffer_ = nullptr`, `capacity_ = 0`. -/
def ctor_default : RawMemory T :=
  { buffer_ := Option.none, capacity_ := 0 }

/-- `Allocate(n)` : `n != 0 ? operator new(n * sizeof(T)) : nullptr`. -/
def Allocate (E : Elem T) (n : Nat) : Option (Block T) :=
  if n ≠ 0 then some { bytes := size_t (n * E.sizeof), slot := fun _ => Option.none }
  else Option.none

/-- `explicit RawMemory(size_t capacity)`. -/
def ctor (E : Elem T) (capacity : Nat) : RawMemory T :=
  { buffer_ := Allocate E capacity, capacity_ := capacity }

/-- Whether `RawMemory(capacity)` throws: `operator new` is called, and can
throw, only for a capacity other than 0. -/
def ctor_throws (F : Faults) (capacity : Nat) : Option Exn :=
  if capacity ≠ 0 then F.alloc else Option.none

/-- `Swap(other)` : exchanges `buffer_` and `capacity_`; returns `(*this, other)`. -/
def Swap (self other : RawMemory T) : RawMemory T × RawMemory T :=
  ({ buffer_ := other.buffer_, capacity_ := other.capacity_ },
   { buffer_ := self.buffer_, capacity_ := self.capacity_ })

/-- `RawMemory(RawMemory&& other)` : default members, then `Swap(other)`;
returns `(*this, other)`. -/
def ctor_move (other : RawMemory T) : RawMemory T × RawMemory T :=
  Swap ctor_default other

/-- `operator=(RawMemory&& rhs)` for `this != &rhs`; returns `(*this, rhs)`. -/
def assign_move (self rhs : RawMemory T) : RawMemory T × RawMemory T :=
  Swap self rhs

/-- `Capacity()`. -/
def Capacity (m : RawMemory T) : Nat := m.capacity_

/-- Object found at `buffer_ + i` (`none` for raw storage or a null buffer). -/
def get (m : RawMemory T) (i : Nat) : Option T :=
  match m.buffer_ with
  | Option.none => Option.none
  | some b => b.slot i

/-- Stores `x` at `buffer_ + i`; there is nothing to store to behind `nullptr`. -/
def set (m : RawMemory T) (i : Nat) (x : Option T) : RawMemory T :=
  match m.buffer_ with
  | Option.none => m
  | some b =>
    { buffer_ := some { bytes := b.bytes, slot := fun j => if j = i then x else b.slot j }
      capacity_ := m.capacity_ }

end RawMemory

/-! ## Standard algorithms on slots -/

section Algorithms

variable {T : Type}

/-- `std::destroy_n(first, n)` : the `n` slots from `first` become raw storage. -/
def destroy_n (m : RawMemory T) (first : Nat) : Nat → RawMemory T
  | 0 => m
  | n + 1 => (destroy_n m first n).set (first + n) Option.none

/-- `std::uninitialized_copy_n(first, count, result)` from block `src` into
block `dst`.  When a copy throws, the elements constructed so far are destroyed
and the exception leaves. -/
def uninitialized_copy_n (fault : Nat → Option Exn) (src : RawMemory T) (first : Nat) :
    Nat → RawMemory T → Nat → Option Exn × RawMemory T
  | 0, dst, _ => (Option.none, dst)
  | count + 1, dst, result =>
    match uninitialized_copy_n fault src first count dst result with
    | (some e, dst1) => (some e, dst1)
    | (Option.none, dst1) =>
      match fault (first + count) with
      | some e => (some e, destroy_n dst1 result count)
      | Option.none => (Option.none, dst1.set (result + count) (src.get (first + count)))

/-- `std::uninitialized_move_n(first, count, result)` from block `src` into
block `dst`; returns the exception if any, the source block and the
destination block.  Sources already moved stay moved-from when a later move
throws. -/
def uninitialized_move_n (E : Elem T) (fault : Nat → Option Exn) (first : Nat) :
    Nat → RawMemory T → RawMemory T → Nat → Option Exn × RawMemory T × RawMemory T
  | 0, src, dst, _ => (Option.none, src, dst)
  | count + 1, src, dst, result =>
    match uninitialized_move_n E fault first count src dst result with
    | (some e, src1, dst1) => (some e, src1, dst1)
    | (Option.none, src1, dst1) =>
      match fault (first + count) with
      | some e => (some e, src1, destroy_n dst1 result count)
      | Option.none =>
        (Option.none,
         src1.set (first + count) ((src1.get (first + count)).map E.moved_from),
         dst1.set (result + count) (src1.get (first + count)))

/-- `std::uninitialized_value_construct_n(first, count)`.  When a construction
throws, the elements constructed so far are destroyed. -/
def uninitialized_value_construct_n (E : Elem T) (fault : Nat → Option Exn) (first : Nat) :
    Nat → RawMemory T → Option Exn × RawMemory T
  | 0, m => (Option.none, m)
  | count + 1, m =>
    match uninitialized_value_construct_n E fault first count m with
    | (some e, m1) => (some e, m1)
    | (Option.none, m1) =>
      match fault (first + count) with
      | some e => (some e, destroy_n m1 first count)
      | Option.none => (Option.none, m1.set (first + count) (some E.value_init))

/-- `std::copy(first, first + count, result)` from block `src` into block
`dst` by copy assignment. -/
def copy_n (src : RawMemory T) (first : Nat) : Nat → RawMemory T → Nat → RawMemory T
  | 0, dst, _ => dst
  | count + 1, dst, result =>
    (copy_n src first count dst result).set (result + count) (src.get (first + count))

/-- `std::move(first, first + count, result)` inside one block, front to back,
by move assignment. -/
def move_n (E : Elem T) (first result : Nat) : Nat → RawMemory T → RawMemory T
  | 0, m => m
  | count + 1, m =>
    let m1 := move_n E first result count m
    (m1.set (result + count) (m1.get (first + count))).set (first + count)
      ((m1.get (first + count)).map E.moved_from)

/-- `std::move_backward(first, first + count, d_first + count)` inside one
block, back to front, by move assignment. -/
def move_backward_n (E : Elem T) (first d_first : Nat) : Nat → RawMemory T → RawMemory T
  | 0, m => m
  | count + 1, m =>
    move_backward_n E first d_first count
      ((m.set (d_first + count) (m.get (first + count))).set (first + count)
        ((m.get (first + count)).map E.moved_from))

end Algorithms

/-! ## Vector -/

/-- Class `Vector<T>`: `data_` and `size_`. -/
structure Vector (T : Type) where
  data_ : RawMemory T
  size_ : Nat

/-- Decrement of a `size_t`, as `size_--` and `size_ - 1` compute it. -/
def size_t_dec (n : Nat) : Nat := size_t (n + (2 ^ 64 - 1))

/-- Condition of the `if constexpr` in `MoveOrCopy`: true when the elements are
moved, false when they are copied. -/
def MoveOrCopy_moves {T : Type} (E : Elem T) : Bool :=
  E.is_nothrow_move_constructible || !E.is_copy_constructible

/-- `MoveOrCopy(begin, count_value, result)` with `begin` at offset `first` of
block `src` and `result` at offset `result` of block `dst`; returns the
exception if any, the source block and the destination block. -/
def MoveOrCopy {T : Type} (E : Elem T) (F : Faults) (src : RawMemory T) (first count_value : Nat)
    (dst : RawMemory T) (result : Nat) : Option Exn × RawMemory T × RawMemory T :=
  if MoveOrCopy_moves E then
    uninitialized_move_n E (move_fault E F) first count_value src dst result
  else
    match uninitialized_copy_n F.copy src first count_value dst result with
    | (e, dst1) => (e, src, dst1)

namespace Vector

variable {T : Type}

/-- `Vector() = default`. -/
def ctor_default : Vector T :=
  { data_ := RawMemory.ctor_default, size_ := 0 }

/-- `begin()` as an offset into the block of `data_`. -/
def begin (_v : Vector T) : Nat := 0

/-- `end()` as an offset into the block of `data_`. -/
def end_ (v : Vector T) : Nat := v.begin + v.size_

/-- `Size()`. -/
def Size (v : Vector T) : Nat := v.size_

/-- `Capacity()`. -/
def Capacity (v : Vector T) : Nat := v.data_.Capacity

/-- `Empty()`. -/
def Empty (v : Vector T) : Bool := decide (v.size_ = 0)

/-- The slots `[0, size_)` in order: what `operator[]` and iteration observe. -/
def elems (v : Vector T) : List (Option T) :=
  (List.range v.size_).map v.data_.get

/-- `Swap(other)` : swaps `data_` and `size_`; returns `(*this, other)`. -/
def Swap (self other : Vector T) : Vector T × Vector T :=
  ({ data_ := (self.data_.Swap other.data_).1, size_ := other.size_ },
   { data_ := (self.data_.Swap other.data_).2, size_ := self.size_ })

/-- `explicit Vector(size_t size)`. -/
def ctor_size (E : Elem T) (F : Faults) (size : Nat) : Except Exn (Vector T) :=
  match RawMemory.ctor_throws F size with
  | some e => Except.error e
  | Option.none =>
    match uninitialized_value_construct_n E F.value_init 0 size (RawMemory.ctor E size) with
    | (some e, _) => Except.error e
    | (Option.none, d) => Except.ok { data_ := d, size_ := size }

/-- `Vector(const Vector& other)`. -/
def ctor_copy (E : Elem T) (F : Faults) (other : Vector T) : Except Exn (Vector T) :=
  match RawMemory.ctor_throws F other.size_ with
  | some e => Except.error e
  | Option.none =>
    match uninitialized_copy_n F.copy other.data_ other.begin other.size_
        (RawMemory.ctor E other.size_) 0 with
    | (some e, _) => Except.error e
    | (Option.none, d) => Except.ok { data_ := d, size_ := other.size_ }

/-- `Vector(Vector&& other)` : default members, then `Swap(other)`; returns
`(*this, other)`. -/
def ctor_move (other : Vector T) : Vector T × Vector T :=
  Swap ctor_default other

/-- `operator=(const Vector& rhs)` for `this != &rhs`; `rhs` is not modified. -/
def assign_copy (E : Elem T) (F : Faults) (self rhs : Vector T) : Outcome Unit × Vector T :=
  if rhs.size_ > self.data_.Capacity then
    match ctor_copy E F rhs with
    | Except.error e => (Outcome.threw e, self)
    | Except.ok rhs_copy => (Outcome.ok (), (Swap self rhs_copy).1)
  else
    let d1 := copy_n rhs.data_ rhs.begin (min self.size_ rhs.size_) self.data_ self.begin
    if rhs.size_ < self.size_ then
      (Outcome.ok (),
       { data_ := destroy_n d1 (self.begin + rhs.size_) (self.size_ - rhs.size_)
         size_ := rhs.size_ })
    else
      match uninitialized_copy_n F.copy rhs.data_ (rhs.begin + self.size_)
          (rhs.size_ - self.size_) d1 (self.begin + self.size_) with
      | (some e, d2) => (Outcome.threw e, { data_ := d2, size_ := self.size_ })
      | (Option.none, d2) => (Outcome.ok (), { data_ := d2, size_ := rhs.size_ })

/-- `operator=(Vector&& rhs)` for `this != &rhs`; returns `(*this, rhs)`. -/
def assign_move (self rhs : Vector T) : Vector T × Vector T :=
  Swap self rhs

/-- `Reserve(new_capacity)`. -/
def Reserve (E : Elem T) (F : Faults) (new_capacity : Nat) (v : Vector T) :
    Outcome Unit × Vector T :=
  if v.size_ ≥ new_capacity then (Outcome.ok (), v)
  else
    match RawMemory.ctor_throws F new_capacity with
    | some e => (Outcome.threw e, v)
    | Option.none =>
      match MoveOrCopy E F v.data_ v.begin v.size_ (RawMemory.ctor E new_capacity) 0 with
      | (some e, src, _) => (Outcome.threw e, { data_ := src, size_ := v.size_ })
      | (Option.none, src, new_data) =>
        (Outcome.ok (),
         { data_ := ((destroy_n src v.begin v.size_).Swap new_data).1, size_ := v.size_ })

/-- `Resize(new_size)`. -/
def Resize (E : Elem T) (F : Faults) (new_size : Nat) (v : Vector T) :
    Outcome Unit × Vector T :=
  if v.size_ > new_size then
    (Outcome.ok (),
     { data_ := destroy_n v.data_ (v.begin + new_size) (v.size_ - new_size), size_ := new_size })
  else if v.size_ = new_size then (Outcome.ok (), v)
  else
    match
      (if new_size > v.data_.Capacity then
        Reserve E F (max (size_t (v.data_.Capacity * 2)) new_size) v
      else (Outcome.ok (), v)) with
    | (Outcome.ok _, v1) =>
      match uninitialized_value_construct_n E F.value_init (v1.begin + v1.size_)
          (new_size - v1.size_) v1.data_ with
      | (some e, d) => (Outcome.threw e, { data_ := d, size_ := v1.size_ })
      | (Option.none, d) => (Outcome.ok (), { data_ := d, size_ := new_size })
    | (r, v1) => (r, v1)

/-- Tail of `EmplaceBack`: `size_++; return data_[size_ - 1];` with the
`assert(index < capacity_)` of `RawMemory::operator[]`.  The reference returned
is given as the offset of the element. -/
def EmplaceBack_return (v : Vector T) : Outcome Nat × Vector T :=
  let v1 : Vector T := { data_ := v.data_, size_ := size_t (v.size_ + 1) }
  if size_t_dec v1.size_ < v1.data_.capacity_ then (Outcome.ok (size_t_dec v1.size_), v1)
  else (Outcome.assert_failed, v1)

/-- `EmplaceBack(args...)`, where `T(args...)` has value `x`. -/
def EmplaceBack (E : Elem T) (F : Faults) (x : T) (v : Vector T) : Outcome Nat × Vector T :=
  if v.data_.Capacity = v.size_ then
    match RawMemory.ctor_throws F (if v.size_ = 0 then 1 else size_t (v.size_ * 2)) with
    | some e => (Outcome.threw e, v)
    | Option.none =>
      match F.construct with
      | some e => (Outcome.threw e, v)
      | Option.none =>
        let new_data :=
          (RawMemory.ctor E (if v.size_ = 0 then 1 else size_t (v.size_ * 2))).set v.size_
            (some x)
        if v.size_ ≠ 0 then
          match MoveOrCopy E F v.data_ v.begin v.size_ new_data 0 with
          | (some e, src, _) => (Outcome.threw e, { data_ := src, size_ := v.size_ })
          | (Option.none, src, new_data1) =>
            EmplaceBack_return
              { data_ := ((destroy_n src v.begin v.size_).Swap new_data1).1, size_ := v.size_ }
        else
          EmplaceBack_return { data_ := (v.data_.Swap new_data).1, size_ := v.size_ }
  else
    match F.construct with
    | some e => (Outcome.threw e, v)
    | Option.none =>
      EmplaceBack_return { data_ := v.data_.set (v.begin + v.size_) (some x), size_ := v.size_ }

/-- `PushBack(value)` : `EmplaceBack(value)`, result discarded. -/
def PushBack (E : Elem T) (F : Faults) (value : T) (v : Vector T) : Outcome Unit × Vector T :=
  match EmplaceBack E F value v with
  | (Outcome.ok _, v1) => (Outcome.ok (), v1)
  | (Outcome.threw e, v1) => (Outcome.threw e, v1)
  | (Outcome.assert_failed, v1) => (Outcome.assert_failed, v1)

/-- `PopBack()`, with the `assert(index < capacity_)` of `RawMemory::operator[]`. -/
def PopBack (v : Vector T) : Outcome Unit × Vector T :=
  if !v.Empty then
    if size_t_dec v.size_ < v.data_.capacity_ then
      (Outcome.ok (),
       { data_ := v.data_.set (size_t_dec v.size_) Option.none, size_ := size_t_dec v.size_ })
    else (Outcome.assert_failed, { data_ := v.data_, size_ := size_t_dec v.size_ })
  else (Outcome.ok (), v)

/-- Reallocating branch of `Emplace` (the `else` of `size_ < data_.Capacity()`),
up to and including `data_.Swap(new_data)`.  Returns the exception if any, the
vector, and the local `new_data` as it is when its destructor releases its
block; that destructor destroys no element.  When the allocation throws there
is no such block and the third component is the empty `RawMemory`. -/
def Emplace_realloc (E : Elem T) (F : Faults) (index : Nat) (x : T) (v : Vector T) :
    Option Exn × Vector T × RawMemory T :=
  match RawMemory.ctor_throws F (if v.size_ = 0 then 1 else size_t (v.size_ * 2)) with
  | some e => (some e, v, RawMemory.ctor_default)
  | Option.none =>
    let new_data := RawMemory.ctor E (if v.size_ = 0 then 1 else size_t (v.size_ * 2))
    match F.construct with
    | some e => (some e, v, new_data)
    | Option.none =>
      match MoveOrCopy E F v.data_ v.begin index (new_data.set index (some x)) 0 with
      | (some e, src, new_data1) =>
        (some e, { data_ := src, size_ := v.size_ },
         if e = Exn.std_exception then destroy_n new_data1 index 1 else new_data1)
      | (Option.none, src, new_data1) =>
        match MoveOrCopy E F src (v.begin + index) (v.size_ - index) new_data1 (index + 1) with
        | (some e, src1, new_data2) =>
          (some e, { data_ := src1, size_ := v.size_ },
           if e = Exn.std_exception then destroy_n new_data2 0 index else new_data2)
        | (Option.none, src1, new_data2) =>
          (Option.none,
           { data_ := ((destroy_n src1 v.begin v.size_).Swap new_data2).1, size_ := v.size_ },
           ((destroy_n src1 v.begin v.size_).Swap new_data2).2)

/-- `Emplace(pos, args...)`, where `T(args...)` has value `x`; the iterator
returned is given as an offset. -/
def Emplace (E : Elem T) (F : Faults) (pos : Nat) (x : T) (v : Vector T) :
    Outcome Nat × Vector T :=
  if ¬ (pos ≥ v.begin ∧ pos ≤ v.end_) then (Outcome.assert_failed, v)
  else
    let index := pos - v.begin
    if pos = v.end_ then
      match EmplaceBack E F x v with
      | (Outcome.ok _, v1) => (Outcome.ok (v1.begin + index), v1)
      | (Outcome.threw e, v1) => (Outcome.threw e, v1)
      | (Outcome.assert_failed, v1) => (Outcome.assert_failed, v1)
    else if v.size_ < v.data_.Capacity then
      match F.construct with
      | some e => (Outcome.threw e, v)
      | Option.none =>
        match move_fault E F (v.end_ - 1) with
        | some e => (Outcome.threw e, v)
        | Option.none =>
          let d1 :=
            (v.data_.set (v.begin + v.size_) (v.data_.get (v.end_ - 1))).set (v.end_ - 1)
              ((v.data_.get (v.end_ - 1)).map E.moved_from)
          let count := (v.end_ - 1) - (v.begin + index)
          let d2 := move_backward_n E (v.begin + index) (v.end_ - count) count d1
          (Outcome.ok (v.begin + index),
           { data_ := d2.set (v.begin + index) (some x), size_ := size_t (v.size_ + 1) })
    else
      match Emplace_realloc E F index x v with
      | (some e, v1, _) => (Outcome.threw e, v1)
      | (Option.none, v1, _) =>
        (Outcome.ok (v1.begin + index), { data_ := v1.data_, size_ := size_t (v1.size_ + 1) })

/-- `Insert(pos, value)` : `Emplace(pos, value)`. -/
def Insert (E : Elem T) (F : Faults) (pos : Nat) (value : T) (v : Vector T) :
    Outcome Nat × Vector T :=
  Emplace E F pos value v

/-- `Erase(pos)`; the iterator returned is given as an offset.  `std::move`
runs `last - first` steps when that is positive and none otherwise; the
destructor call at `end() - 1` touches no slot of the block when `size_` is 0. -/
def Erase (E : Elem T) (pos : Nat) (v : Vector T) : Outcome Nat × Vector T :=
  if ¬ (pos ≥ v.begin ∧ pos ≤ v.end_) then (Outcome.assert_failed, v)
  else
    let index := pos - v.begin
    let d1 := move_n E (v.begin + index + 1) (v.begin + index) (v.end_ - (v.begin + index + 1)) v.data_
    let d2 := if v.end_ = v.begin then d1 else d1.set (v.end_ - 1) Option.none
    (Outcome.ok (v.begin + index), { data_ := d2, size_ := size_t_dec v.size_ })

/-- Representation invariant of a vector: the length is within the capacity,
the capacity is one a single block can have, and a block is owned whenever the
capacity is not zero. -/
def Valid (v : Vector T) : Prop :=
  v.size_ ≤ v.data_.capacity_ ∧ v.data_.capacity_ ≤ PTRDIFF_MAX ∧
    (v.data_.capacity_ ≠ 0 → v.data_.buffer_.isSome = true)

end Vector

/-! ## Sample element types and vectors -/

/-- An element type with 8 byte objects and a `noexcept` move constructor. -/
def elem_nothrow : Elem Nat :=
  { sizeof := 8
    is_nothrow_move_constructible := true
    is_copy_constructible := true
    value_init := 0
    moved_from := fun _ => 0 }

/-- An element type with 8 byte objects, copyable, whose move constructor may
throw. -/
def elem_copy : Elem Nat :=
  { sizeof := 8
    is_nothrow_move_constructible := false
    is_copy_constructible := true
    value_init := 0
    moved_from := fun _ => 0 }

/-- The vector `[1, 2, 3]` in a block of capacity 4. -/
def sample_spare : Vector Nat :=
  { data_ :=
      { buffer_ := some { bytes := 32, slot := fun j => if j < 3 then some (j + 1) else none }
        capacity_ := 4 }
    size_ := 3 }

/-- The vector `[1, 2, 3, 4]` in a block of capacity 4. -/
def sample_full : Vector Nat :=
  { data_ :=
      { buffer_ := some { bytes := 32, slot := fun j => if j < 4 then some (j + 1) else none }
        capacity_ := 4 }
    size_ := 4 }

/-- An element type with 8 byte objects that cannot be copied and whose move
constructor may throw. -/
def elem_move_only : Elem Nat :=
  { sizeof := 8
    is_nothrow_move_constructible := false
    is_copy_constructible := false
    value_init := 0
    moved_from := fun _ => 0 }

/-- The copy construction from the element at offset `k` throws. -/
def faults_copy_at (k : Nat) : Faults :=
  { alloc := Option.none
    construct := Option.none
    copy := fun j => if j = k then some Exn.std_exception else Option.none
    move := fun _ => Option.none
    value_init := fun _ => Option.none }

/-- The move construction from the element at offset `k` throws. -/
def faults_move_at (k : Nat) : Faults :=
  { alloc := Option.none
    construct := Option.none
    copy := fun _ => Option.none
    move := fun j => if j = k then some Exn.std_exception else Option.none
    value_init := fun _ => Option.none }

/-- States a vector of `T` can be in: the default-constructed state and what
the public mutators leave, each called on a reachable state with a position
its own `assert` accepts, under any faults. -/
inductive Reachable {T : Type} (E : Elem T) : Vector T → Prop where
  | ctor_default : Reachable E Vector.ctor_default
  | Reserve (F : Faults) (n : Nat) (v : Vector T) :
      Reachable E v → Reachable E (Vector.Reserve E F n v).2
  | Resize (F : Faults) (n : Nat) (v : Vector T) :
      Reachable E v → Reachable E (Vector.Resize E F n v).2
  | PushBack (F : Faults) (x : T) (v : Vector T) :
      Reachable E v → Reachable E (Vector.PushBack E F x v).2
  | EmplaceBack (F : Faults) (x : T) (v : Vector T) :
      Reachable E v → Reachable E (Vector.EmplaceBack E F x v).2
  | PopBack (v : Vector T) :
      Reachable E v → Reachable E (Vector.PopBack v).2
  | Emplace (F : Faults) (pos : Nat) (x : T) (v : Vector T) :
      Reachable E v → pos ≥ v.begin ∧ pos ≤ v.end_ → Reachable E (Vector.Emplace E F pos x v).2
  | Insert (F : Faults) (pos : Nat) (x : T) (v : Vector T) :
      Reachable E v → pos ≥ v.begin ∧ pos ≤ v.end_ → Reachable E (Vector.Insert E F pos x v).2
  | Erase (pos : Nat) (v : Vector T) :
      Reachable E v → pos ≥ v.begin ∧ pos ≤ v.end_ → Reachable E (Vector.Erase E pos v).2
  | assign_copy (F : Faults) (v rhs : Vector T) :
      Reachable E v → Reachable E rhs → Reachable E (Vector.assign_copy E F v rhs).2
  | assign_move_this (v rhs : Vector T) :
      Reachable E v → Reachable E rhs → Reachable E (Vector.assign_move v rhs).1
  | assign_move_rhs (v rhs : Vector T) :
      Reachable E v → Reachable E rhs → Reachable E (Vector.assign_move v rhs).2
  | Swap_this (v other : Vector T) :
      Reachable E v → Reachable E other → Reachable E (Vector.Swap v other).1
  | Swap_other (v other : Vector T) :
      Reachable E v → Reachable E other → Reachable E (Vector.Swap v other).2

/-- The value-initialisation of the slot at offset `k` throws. -/
def faults_value_init_at (k : Nat) : Faults :=
  { alloc := Option.none
    construct := Option.none
    copy := fun _ => Option.none
    move := fun _ => Option.none
    value_init := fun j => if j = k then some Exn.std_exception else Option.none }

/-- `PushBack` of the given values one after the other, stopping at the first
call that does not return normally. -/
def PushBack_all {T : Type} (E : Elem T) (F : Faults) :
    List T → Vector T → Outcome Unit × Vector T
  | [], v => (Outcome.ok (), v)
  | x :: xs, v =>
    match Vector.PushBack E F x v with
    | (Outcome.ok _, v1) => PushBack_all E F xs v1
    | (r, v1) => (r, v1)

/-- Byte count that was passed to `operator new` for the block of `m`; 0 when
`buffer_` is `nullptr`. -/
def RawMemory.requested_bytes {T : Type} (m : RawMemory T) : Nat :=
  match m.buffer_ with
  | Option.none => 0
  | some b => b.bytes

/-- The allocation of the call throws `std::bad_alloc`, which derives from
`std::exception`. -/
def faults_bad_alloc : Faults :=
  { alloc := some Exn.std_exception
    construct := Option.none
    copy := fun _ => Option.none
    move := fun _ => Option.none
    value_init := fun _ => Option.none }

/-- Only value-initialisations throw, as `f` says for each slot offset. -/
def faults_value_init (f : Nat → Option Exn) : Faults :=
  { alloc := Option.none
    construct := Option.none
    copy := fun _ => Option.none
    move := fun _ => Option.none
    value_init := f }

/-! ## Slot lemmas -/

section SlotLemmas

variable {T : Type}

theorem RawMemory.set_capacity (m : RawMemory T) (i : Nat) (x : Option T) :
    (m.set i x).capacity_ = m.capacity_ := by
  unfold RawMemory.set
  cases m.buffer_ <;> rfl

theorem RawMemory.set_isSome (m : RawMemory T) (i : Nat) (x : Option T) :
    (m.set i x).buffer_.isSome = m.buffer_.isSome := by
  unfold RawMemory.set
  cases h : m.buffer_ <;> simp [h]

theorem RawMemory.get_set (m : RawMemory T) (i j : Nat) (x : Option T)
    (h : m.buffer_.isSome = true) :
    (m.set i x).get j = if j = i then x else m.get j := by
  unfold RawMemory.set RawMemory.get
  cases hb : m.buffer_ with
  | none => simp [hb] at h
  | some b => simp

theorem RawMemory.get_of_null (m : RawMemory T) (j : Nat) (h : m.buffer_.isSome = false) :
    m.get j = none := by
  unfold RawMemory.get
  cases hb : m.buffer_ with
  | none => rfl
  | some b => simp [hb] at h

theorem RawMemory.get_set_map (m : RawMemory T) (i j : Nat) (f : T → T) :
    (m.set i ((m.get i).map f)).get j = if j = i then (m.get i).map f else m.get j := by
  cases hb : m.buffer_.isSome with
  | true => exact RawMemory.get_set m i j _ hb
  | false =>
    rw [RawMemory.get_of_null _ _ (by rw [RawMemory.set_isSome]; exact hb),
      RawMemory.get_of_null _ i hb, RawMemory.get_of_null _ j hb]
    simp

theorem RawMemory.ctor_throws_none (n : Nat) : RawMemory.ctor_throws Faults.none n = none := by
  unfold RawMemory.ctor_throws
  split_ifs <;> rfl

theorem RawMemory.ctor_capacity (E : Elem T) (n : Nat) : (RawMemory.ctor E n).capacity_ = n := rfl

theorem RawMemory.ctor_get (E : Elem T) (n j : Nat) : (RawMemory.ctor E n).get j = none := by
  unfold RawMemory.ctor RawMemory.Allocate RawMemory.get
  by_cases h : n = 0 <;> simp [h]

theorem RawMemory.ctor_isSome (E : Elem T) (n : Nat) (h : n ≠ 0) :
    (RawMemory.ctor E n).buffer_.isSome = true := by
  unfold RawMemory.ctor RawMemory.Allocate
  simp [h]

theorem destroy_n_capacity (m : RawMemory T) (first n : Nat) :
    (destroy_n m first n).capacity_ = m.capacity_ := by
  induction n with
  | zero => rfl
  | succ n ih => simp [destroy_n, RawMemory.set_capacity, ih]

theorem destroy_n_isSome (m : RawMemory T) (first n : Nat) :
    (destroy_n m first n).buffer_.isSome = m.buffer_.isSome := by
  induction n with
  | zero => rfl
  | succ n ih => simp [destroy_n, RawMemory.set_isSome, ih]

theorem destroy_n_get (m : RawMemory T) (first n j : Nat) (h : m.buffer_.isSome = true) :
    (destroy_n m first n).get j = if first ≤ j ∧ j < first + n then none else m.get j := by
  induction n with
  | zero =>
    rw [if_neg (by omega)]; rfl
  | succ n ih =>
    have hs : (destroy_n m first n).buffer_.isSome = true := by rw [destroy_n_isSome]; exact h
    simp only [destroy_n, RawMemory.get_set _ _ _ _ hs, ih]
    by_cases h1 : j = first + n
    · subst h1; simp
    · by_cases h2 : first ≤ j ∧ j < first + n
      · have : first ≤ j ∧ j < first + (n + 1) := ⟨h2.1, by omega⟩
        simp [h1, h2, this]
      · have : ¬ (first ≤ j ∧ j < first + (n + 1)) := by omega
        simp [h1, h2, this]

theorem uninitialized_copy_n_ok (src : RawMemory T) (first count : Nat) (dst : RawMemory T)
    (result : Nat) (h : dst.buffer_.isSome = true) :
    (uninitialized_copy_n (fun _ => none) src first count dst result).1 = none ∧
    (uninitialized_copy_n (fun _ => none) src first count dst result).2.capacity_
      = dst.capacity_ ∧
    (uninitialized_copy_n (fun _ => none) src first count dst result).2.buffer_.isSome = true ∧
    ∀ j, (uninitialized_copy_n (fun _ => none) src first count dst result).2.get j =
      if result ≤ j ∧ j < result + count then src.get (first + (j - result)) else dst.get j := by
  induction count with
  | zero =>
    refine ⟨rfl, rfl, h, fun j => ?_⟩
    rw [if_neg (by omega)]; rfl
  | succ n ih =>
    obtain ⟨h1, h2, h3, h4⟩ := ih
    rcases hr : uninitialized_copy_n (fun _ => none) src first n dst result with ⟨e, d⟩
    rw [hr] at h1 h2 h3 h4
    simp only at h1 h2 h3 h4
    subst h1
    simp only [uninitialized_copy_n, hr]
    refine ⟨trivial, ?_, ?_, fun j => ?_⟩
    · rw [RawMemory.set_capacity]; exact h2
    · rw [RawMemory.set_isSome]; exact h3
    · rw [RawMemory.get_set _ _ _ _ h3, h4]
      by_cases c1 : j = result + n
      · subst c1
        have : result ≤ result + n ∧ result + n < result + (n + 1) := by omega
        simp [this]
      · by_cases c2 : result ≤ j ∧ j < result + n
        · have : result ≤ j ∧ j < result + (n + 1) := by omega
          simp [c1, c2, this]
        · have : ¬ (result ≤ j ∧ j < result + (n + 1)) := by omega
          simp [c1, c2, this]

theorem uninitialized_move_n_ok (E : Elem T) (first count : Nat) (src dst : RawMemory T)
    (result : Nat) (h : dst.buffer_.isSome = true) :
    (uninitialized_move_n E (fun _ => none) first count src dst result).1 = none ∧
    (uninitialized_move_n E (fun _ => none) first count src dst result).2.1.capacity_
      = src.capacity_ ∧
    (uninitialized_move_n E (fun _ => none) first count src dst result).2.1.buffer_.isSome
      = src.buffer_.isSome ∧
    (∀ j, (uninitialized_move_n E (fun _ => none) first count src dst result).2.1.get j =
      if first ≤ j ∧ j < first + count then (src.get j).map E.moved_from else src.get j) ∧
    (uninitialized_move_n E (fun _ => none) first count src dst result).2.2.capacity_
      = dst.capacity_ ∧
    (uninitialized_move_n E (fun _ => none) first count src dst result).2.2.buffer_.isSome
      = true ∧
    ∀ j, (uninitialized_move_n E (fun _ => none) first count src dst result).2.2.get j =
      if result ≤ j ∧ j < result + count then src.get (first + (j - result)) else dst.get j := by
  induction count with
  | zero =>
    refine ⟨rfl, rfl, rfl, fun j => ?_, rfl, h, fun j => ?_⟩
    · rw [if_neg (by omega)]; rfl
    · rw [if_neg (by omega)]; rfl
  | succ n ih =>
    obtain ⟨h1, h2, h3, h4, h5, h6, h7⟩ := ih
    rcases hr : uninitialized_move_n E (fun _ => none) first n src dst result with ⟨e, s, d⟩
    rw [hr] at h1 h2 h3 h4 h5 h6 h7
    simp only at h1 h2 h3 h4 h5 h6 h7
    subst h1
    simp only [uninitialized_move_n, hr]
    have hsn : s.get (first + n) = src.get (first + n) := by
      rw [h4, if_neg (by omega)]
    refine ⟨trivial, ?_, ?_, fun j => ?_, ?_, ?_, fun j => ?_⟩
    · rw [RawMemory.set_capacity]; exact h2
    · rw [RawMemory.set_isSome]; exact h3
    · rw [RawMemory.get_set_map, hsn, h4]
      by_cases c1 : j = first + n
      · subst c1
        rw [if_pos rfl, if_pos (by omega)]
      · rw [if_neg c1]
        by_cases c2 : first ≤ j ∧ j < first + n
        · rw [if_pos c2, if_pos (by omega)]
        · rw [if_neg c2, if_neg (by omega)]
    · rw [RawMemory.set_capacity]; exact h5
    · rw [RawMemory.set_isSome]; exact h6
    · rw [RawMemory.get_set _ _ _ _ h6, hsn, h7]
      by_cases c1 : j = result + n
      · subst c1
        rw [if_pos rfl, if_pos (by omega)]
        congr 1; omega
      · rw [if_neg c1]
        by_cases c2 : result ≤ j ∧ j < result + n
        · rw [if_pos c2, if_pos (by omega)]
        · rw [if_neg c2, if_neg (by omega)]

theorem MoveOrCopy_ok (E : Elem T) (src : RawMemory T) (first count : Nat) (dst : RawMemory T)
    (result : Nat) (h : dst.buffer_.isSome = true) :
    (MoveOrCopy E Faults.none src first count dst result).1 = none ∧
    (MoveOrCopy E Faults.none src first count dst result).2.1.capacity_ = src.capacity_ ∧
    (MoveOrCopy E Faults.none src first count dst result).2.1.buffer_.isSome
      = src.buffer_.isSome ∧
    (MoveOrCopy E Faults.none src first count dst result).2.2.capacity_ = dst.capacity_ ∧
    (MoveOrCopy E Faults.none src first count dst result).2.2.buffer_.isSome = true ∧
    (∀ j, (MoveOrCopy E Faults.none src first count dst result).2.2.get j =
      if result ≤ j ∧ j < result + count then src.get (first + (j - result)) else dst.get j) ∧
    ∀ j, ¬ (first ≤ j ∧ j < first + count) →
      (MoveOrCopy E Faults.none src first count dst result).2.1.get j = src.get j := by
  unfold MoveOrCopy
  have hf : move_fault E Faults.none = fun _ => none := by
    funext k; unfold move_fault Faults.none; simp
  by_cases hm : MoveOrCopy_moves E = true
  · rw [if_pos hm, hf]
    obtain ⟨h1, h2, h3, h4, h5, h6, h7⟩ := uninitialized_move_n_ok E first count src dst result h
    exact ⟨h1, h2, h3, h5, h6, h7, fun j hj => by rw [h4, if_neg hj]⟩
  · rw [if_neg hm]
    obtain ⟨h1, h2, h3, h4⟩ := uninitialized_copy_n_ok src first count dst result h
    exact ⟨h1, rfl, rfl, h2, h3, h4, fun _ _ => rfl⟩

theorem uninitialized_value_construct_n_ok (E : Elem T) (first count : Nat) (m : RawMemory T)
    (h : m.buffer_.isSome = true) :
    (uninitialized_value_construct_n E (fun _ => none) first count m).1 = none ∧
    (uninitialized_value_construct_n E (fun _ => none) first count m).2.capacity_
      = m.capacity_ ∧
    (uninitialized_value_construct_n E (fun _ => none) first count m).2.buffer_.isSome = true ∧
    ∀ j, (uninitialized_value_construct_n E (fun _ => none) first count m).2.get j =
      if first ≤ j ∧ j < first + count then some E.value_init else m.get j := by
  induction count with
  | zero =>
    refine ⟨rfl, rfl, h, fun j => ?_⟩
    rw [if_neg (by omega)]; rfl
  | succ n ih =>
    obtain ⟨h1, h2, h3, h4⟩ := ih
    rcases hr : uninitialized_value_construct_n E (fun _ => none) first n m with ⟨e, d⟩
    rw [hr] at h1 h2 h3 h4
    simp only at h1 h2 h3 h4
    subst h1
    simp only [uninitialized_value_construct_n, hr]
    refine ⟨trivial, ?_, ?_, fun j => ?_⟩
    · rw [RawMemory.set_capacity]; exact h2
    · rw [RawMemory.set_isSome]; exact h3
    · rw [RawMemory.get_set _ _ _ _ h3, h4]
      by_cases c1 : j = first + n
      · subst c1
        rw [if_pos rfl, if_pos (by omega)]
      · rw [if_neg c1]
        by_cases c2 : first ≤ j ∧ j < first + n
        · rw [if_pos c2, if_pos (by omega)]
        · rw [if_neg c2, if_neg (by omega)]

theorem copy_n_ok (src : RawMemory T) (first count : Nat) (dst : RawMemory T) (result : Nat)
    (h : dst.buffer_.isSome = true) :
    (copy_n src first count dst result).capacity_ = dst.capacity_ ∧
    (copy_n src first count dst result).buffer_.isSome = true ∧
    ∀ j, (copy_n src first count dst result).get j =
      if result ≤ j ∧ j < result + count then src.get (first + (j - result)) else dst.get j := by
  induction count with
  | zero =>
    refine ⟨rfl, h, fun j => ?_⟩
    rw [if_neg (by omega)]; rfl
  | succ n ih =>
    obtain ⟨h2, h3, h4⟩ := ih
    simp only [copy_n]
    refine ⟨?_, ?_, fun j => ?_⟩
    · rw [RawMemory.set_capacity]; exact h2
    · rw [RawMemory.set_isSome]; exact h3
    · rw [RawMemory.get_set _ _ _ _ h3, h4]
      by_cases c1 : j = result + n
      · subst c1
        rw [if_pos rfl, if_pos (by omega)]
        congr 1; omega
      · rw [if_neg c1]
        by_cases c2 : result ≤ j ∧ j < result + n
        · rw [if_pos c2, if_pos (by omega)]
        · rw [if_neg c2, if_neg (by omega)]

theorem move_backward_n_shift (E : Elem T) (first count : Nat) (m : RawMemory T)
    (h : m.buffer_.isSome = true) :
    (move_backward_n E first (first + 1) count m).capacity_ = m.capacity_ ∧
    (move_backward_n E first (first + 1) count m).buffer_.isSome = true ∧
    ∀ j, (move_backward_n E first (first + 1) count m).get j =
      if first < j ∧ j ≤ first + count then m.get (j - 1)
      else if j = first ∧ 0 < count then (m.get first).map E.moved_from
      else m.get j := by
  induction count generalizing m with
  | zero =>
    refine ⟨rfl, h, fun j => ?_⟩
    rw [if_neg (by omega), if_neg (by omega)]; rfl
  | succ n ih =>
    have hs1 : (m.set (first + 1 + n) (m.get (first + n))).buffer_.isSome = true := by
      rw [RawMemory.set_isSome]; exact h
    have hs2 : ((m.set (first + 1 + n) (m.get (first + n))).set (first + n)
        ((m.get (first + n)).map E.moved_from)).buffer_.isSome = true := by
      rw [RawMemory.set_isSome]; exact hs1
    obtain ⟨h2, h3, h4⟩ := ih _ hs2
    simp only [move_backward_n]
    refine ⟨?_, h3, fun j => ?_⟩
    · rw [h2, RawMemory.set_capacity, RawMemory.set_capacity]
    · rw [h4]
      simp only [RawMemory.get_set _ _ _ _ hs1, RawMemory.get_set _ _ _ _ h]
      split_ifs <;> first | rfl | omega | (congr 1; omega) | (congr 2; omega)

theorem move_n_shift (E : Elem T) (r count : Nat) (m : RawMemory T)
    (h : m.buffer_.isSome = true) :
    (move_n E (r + 1) r count m).capacity_ = m.capacity_ ∧
    (move_n E (r + 1) r count m).buffer_.isSome = true ∧
    ∀ j, (move_n E (r + 1) r count m).get j =
      if r ≤ j ∧ j < r + count then m.get (j + 1)
      else if j = r + count ∧ 0 < count then (m.get j).map E.moved_from
      else m.get j := by
  induction count with
  | zero =>
    refine ⟨rfl, h, fun j => ?_⟩
    rw [if_neg (by omega), if_neg (by omega)]; rfl
  | succ n ih =>
    obtain ⟨h2, h3, h4⟩ := ih
    have hs1 : ((move_n E (r + 1) r n m).set (r + n)
        ((move_n E (r + 1) r n m).get (r + 1 + n))).buffer_.isSome = true := by
      rw [RawMemory.set_isSome]; exact h3
    have hsrc : (move_n E (r + 1) r n m).get (r + 1 + n) = m.get (r + 1 + n) := by
      rw [h4, if_neg (by omega), if_neg (by omega)]
    simp only [move_n]
    refine ⟨?_, ?_, fun j => ?_⟩
    · rw [RawMemory.set_capacity, RawMemory.set_capacity]; exact h2
    · rw [RawMemory.set_isSome]; exact hs1
    · rw [RawMemory.get_set _ _ _ _ hs1, RawMemory.get_set _ _ _ _ h3, hsrc, h4]
      split_ifs <;> first | rfl | omega | (congr 1; omega) | (congr 2; omega)

/-- The observable sequence is `l` exactly when the length matches and every
slot below the length holds the corresponding entry. -/
theorem Vector.elems_eq_iff (v : Vector T) (l : List T) :
    v.elems = l.map some ↔ v.size_ = l.length ∧ ∀ j, j < l.length → v.data_.get j = l[j]? := by
  unfold Vector.elems
  constructor
  · intro h
    have hl : v.size_ = l.length := by
      have := congrArg List.length h
      simpa using this
    refine ⟨hl, fun j hj => ?_⟩
    have := congrArg (fun t => t[j]?) h
    simp only [List.getElem?_map, List.getElem?_range (hl ▸ hj)] at this
    rw [List.getElem?_eq_getElem hj] at this ⊢
    simpa using this
  · rintro ⟨hl, hg⟩
    apply List.ext_getElem?
    intro j
    by_cases hj : j < l.length
    · simp only [List.getElem?_map, List.getElem?_range (hl ▸ hj), Option.map_some']
      rw [hg j hj, List.getElem?_eq_getElem hj]
      rfl
    · have h1 : ((List.range v.size_).map v.data_.get)[j]? = none := by
        apply List.getElem?_eq_none
        simp; omega
      have h2 : (l.map some)[j]? = none := by
        apply List.getElem?_eq_none
        simp; omega
      rw [h1, h2]

theorem List.getElem?_take_cons_drop (xs : List T) (i : Nat) (x : T) (hi : i ≤ xs.length)
    (j : Nat) :
    (xs.take i ++ x :: xs.drop i)[j]? =
      if j < i then xs[j]? else if j = i then some x else xs[j - 1]? := by
  have hlen : (xs.take i).length = i := by simp [hi]
  by_cases c1 : j < i
  · rw [if_pos c1, List.getElem?_append_left (by omega), List.getElem?_take_of_lt c1]
  · rw [if_neg c1, List.getElem?_append_right (by omega), hlen]
    by_cases c2 : j = i
    · subst c2; simp
    · rw [if_neg c2]
      obtain ⟨k, hk⟩ : ∃ k, j - i = k + 1 := ⟨j - i - 1, by omega⟩
      rw [hk, List.getElem?_cons_succ, List.getElem?_drop]
      congr 1; omega

end SlotLemmas

/-! ## Behaviour of the mutators when no construction throws -/

section Mutators

variable {T : Type}

theorem size_t_of_lt (n : Nat) (h : n < 2 ^ 64) : size_t n = n :=
  Nat.mod_eq_of_lt h

theorem size_t_dec_succ (n : Nat) (h : n + 1 < 2 ^ 64) : size_t_dec (n + 1) = n := by
  unfold size_t_dec size_t
  omega

theorem Vector.EmplaceBack_return_eq (v : Vector T) (h : v.size_ < v.data_.capacity_)
    (hc : v.data_.capacity_ < 2 ^ 64) :
    Vector.EmplaceBack_return v
      = (Outcome.ok v.size_, { data_ := v.data_, size_ := v.size_ + 1 }) := by
  unfold Vector.EmplaceBack_return
  have h1 : size_t (v.size_ + 1) = v.size_ + 1 := size_t_of_lt _ (by omega)
  simp only [h1, size_t_dec_succ v.size_ (by omega), if_pos h]

theorem Vector.EmplaceBack_none_eq (E : Elem T) (x : T) (v : Vector T) :
    Vector.EmplaceBack E Faults.none x v =
      if v.data_.capacity_ = v.size_ then
        if v.size_ ≠ 0 then
          match MoveOrCopy E Faults.none v.data_ 0 v.size_
              ((RawMemory.ctor E (if v.size_ = 0 then 1 else size_t (v.size_ * 2))).set v.size_
                (some x)) 0 with
          | (some e, src, _) => (Outcome.threw e, { data_ := src, size_ := v.size_ })
          | (Option.none, src, new_data1) =>
            Vector.EmplaceBack_return
              { data_ := ((destroy_n src 0 v.size_).Swap new_data1).1, size_ := v.size_ }
        else
          Vector.EmplaceBack_return
            { data_ := (v.data_.Swap ((RawMemory.ctor E
                (if v.size_ = 0 then 1 else size_t (v.size_ * 2))).set v.size_ (some x))).1
              size_ := v.size_ }
      else
        Vector.EmplaceBack_return
          { data_ := v.data_.set (0 + v.size_) (some x), size_ := v.size_ } := by
  unfold Vector.EmplaceBack
  simp only [RawMemory.ctor_throws_none]
  rfl

/-- `EmplaceBack` without faults on a valid vector: the call returns the offset
of the new last element, the old slots keep their values and the new slot holds
the new value. -/
theorem Vector.EmplaceBack_ok (E : Elem T) (x : T) (v : Vector T) (hv : v.Valid) :
    ∃ v1, Vector.EmplaceBack E Faults.none x v = (Outcome.ok v.size_, v1) ∧
      v1.size_ = v.size_ + 1 ∧
      v1.data_.capacity_ =
        (if v.data_.capacity_ = v.size_ then (if v.size_ = 0 then 1 else v.size_ * 2)
         else v.data_.capacity_) ∧
      v1.data_.buffer_.isSome = true ∧
      (∀ j, j < v.size_ → v1.data_.get j = v.data_.get j) ∧
      v1.data_.get v.size_ = some x := by
  obtain ⟨hle, hmax, hnn⟩ := hv
  unfold PTRDIFF_MAX at hmax
  rw [Vector.EmplaceBack_none_eq]
  have hdbl : size_t (v.size_ * 2) = v.size_ * 2 := size_t_of_lt _ (by omega)
  rw [hdbl]
  by_cases hfull : v.data_.capacity_ = v.size_
  · simp only [if_pos hfull]
    generalize hn : (if v.size_ = 0 then 1 else v.size_ * 2) = n
    have hn0 : n ≠ 0 := by rw [← hn]; split_ifs <;> omega
    have hlt : v.size_ < n := by rw [← hn]; split_ifs <;> omega
    have hcap : n < 2 ^ 64 := by rw [← hn]; split_ifs <;> omega
    have hnew : ((RawMemory.ctor E n).set v.size_ (some x)).buffer_.isSome = true := by
      rw [RawMemory.set_isSome]; exact RawMemory.ctor_isSome E _ hn0
    have hnewget : ∀ j, ((RawMemory.ctor E n).set v.size_ (some x)).get j
        = if j = v.size_ then some x else none := by
      intro j
      rw [RawMemory.get_set _ _ _ _ (RawMemory.ctor_isSome E _ hn0), RawMemory.ctor_get]
    have hnewcap : ((RawMemory.ctor E n).set v.size_ (some x)).capacity_ = n := by
      rw [RawMemory.set_capacity, RawMemory.ctor_capacity]
    by_cases hz : v.size_ = 0
    · rw [if_neg (not_not.mpr hz)]
      rw [Vector.EmplaceBack_return_eq _ (by simpa [RawMemory.Swap, hnewcap] using hlt)
        (by simpa [RawMemory.Swap, hnewcap] using hcap)]
      refine ⟨_, rfl, rfl, hnewcap, hnew, fun j hj => absurd hj (by omega), ?_⟩
      show ((RawMemory.ctor E n).set v.size_ (some x)).get v.size_ = some x
      rw [hnewget, if_pos rfl]
    · rw [if_pos hz]
      have hm := MoveOrCopy_ok E v.data_ 0 v.size_ _ 0 hnew
      split
      · rename_i e src d heq
        rw [heq] at hm
        exact absurd hm.1 (by simp)
      · rename_i src d heq
        rw [heq] at hm
        obtain ⟨-, -, -, m4, m5, m6, -⟩ := hm
        simp only at m4 m5 m6
        rw [Vector.EmplaceBack_return_eq _
          (by simpa [RawMemory.Swap, m4, hnewcap] using hlt)
          (by simpa [RawMemory.Swap, m4, hnewcap] using hcap)]
        refine ⟨_, rfl, rfl, ?_, m5, fun j hj => ?_, ?_⟩
        · show d.capacity_ = n
          rw [m4, hnewcap]
        · show d.get j = v.data_.get j
          rw [m6 j, if_pos (by omega)]
          congr 1
          omega
        · show d.get v.size_ = some x
          rw [m6, if_neg (by omega), hnewget, if_pos rfl]
  · simp only [if_neg hfull, zero_add]
    have hlt : v.size_ < v.data_.capacity_ := by omega
    have hnn1 : v.data_.buffer_.isSome = true := hnn (by omega)
    rw [Vector.EmplaceBack_return_eq _ (by rw [RawMemory.set_capacity]; exact hlt)
      (by rw [RawMemory.set_capacity]; omega)]
    refine ⟨_, rfl, rfl, ?_, ?_, fun j hj => ?_, ?_⟩
    · show (v.data_.set v.size_ (some x)).capacity_ = v.data_.capacity_
      rw [RawMemory.set_capacity]
    · show (v.data_.set v.size_ (some x)).buffer_.isSome = true
      rw [RawMemory.set_isSome]; exact hnn1
    · show (v.data_.set v.size_ (some x)).get j = v.data_.get j
      rw [RawMemory.get_set _ _ _ _ hnn1, if_neg (by omega)]
    · show (v.data_.set v.size_ (some x)).get v.size_ = some x
      rw [RawMemory.get_set _ _ _ _ hnn1, if_pos rfl]

theorem move_fault_none (E : Elem T) (k : Nat) : move_fault E Faults.none k = none := by
  unfold move_fault Faults.none
  simp

theorem Vector.Emplace_realloc_none_eq (E : Elem T) (index : Nat) (x : T) (v : Vector T) :
    Vector.Emplace_realloc E Faults.none index x v =
      match MoveOrCopy E Faults.none v.data_ 0 index
          ((RawMemory.ctor E (if v.size_ = 0 then 1 else size_t (v.size_ * 2))).set index
            (some x)) 0 with
      | (some e, src, new_data1) =>
        (some e, { data_ := src, size_ := v.size_ },
         if e = Exn.std_exception then destroy_n new_data1 index 1 else new_data1)
      | (Option.none, src, new_data1) =>
        match MoveOrCopy E Faults.none src (0 + index) (v.size_ - index) new_data1 (index + 1) with
        | (some e, src1, new_data2) =>
          (some e, { data_ := src1, size_ := v.size_ },
           if e = Exn.std_exception then destroy_n new_data2 0 index else new_data2)
        | (Option.none, src1, new_data2) =>
          (Option.none,
           { data_ := ((destroy_n src1 0 v.size_).Swap new_data2).1, size_ := v.size_ },
           ((destroy_n src1 0 v.size_).Swap new_data2).2) := by
  unfold Vector.Emplace_realloc
  simp only [RawMemory.ctor_throws_none]
  rfl

/-- Reallocating branch of `Emplace` without faults: the new block holds the
old elements around the new one and the old block is left without live
objects. -/
theorem Vector.Emplace_realloc_ok (E : Elem T) (index : Nat) (x : T) (v : Vector T)
    (hv : v.Valid) (hi : index < v.size_) :
    ∃ v1 scrap, Vector.Emplace_realloc E Faults.none index x v = (none, v1, scrap) ∧
      v1.size_ = v.size_ ∧
      v1.data_.capacity_ = v.size_ * 2 ∧
      v1.data_.buffer_.isSome = true ∧
      (∀ j, j < index → v1.data_.get j = v.data_.get j) ∧
      v1.data_.get index = some x ∧
      (∀ j, index < j → j ≤ v.size_ → v1.data_.get j = v.data_.get (j - 1)) ∧
      (∀ j, scrap.get j = if j < v.size_ then none else v.data_.get j) := by
  obtain ⟨hle, hmax, hnn⟩ := hv
  unfold PTRDIFF_MAX at hmax
  rw [Vector.Emplace_realloc_none_eq]
  have hdbl : size_t (v.size_ * 2) = v.size_ * 2 := size_t_of_lt _ (by omega)
  have hz : ¬ v.size_ = 0 := by omega
  rw [hdbl, if_neg hz, zero_add]
  have hn0 : v.size_ * 2 ≠ 0 := by omega
  have hsrc : v.data_.buffer_.isSome = true := hnn (by omega)
  have hnew : ((RawMemory.ctor E (v.size_ * 2)).set index (some x)).buffer_.isSome = true := by
    rw [RawMemory.set_isSome]; exact RawMemory.ctor_isSome E _ hn0
  have hnewget : ∀ j, ((RawMemory.ctor E (v.size_ * 2)).set index (some x)).get j
      = if j = index then some x else none := by
    intro j
    rw [RawMemory.get_set _ _ _ _ (RawMemory.ctor_isSome E _ hn0), RawMemory.ctor_get]
  have hnewcap : ((RawMemory.ctor E (v.size_ * 2)).set index (some x)).capacity_
      = v.size_ * 2 := by
    rw [RawMemory.set_capacity, RawMemory.ctor_capacity]
  have hm := MoveOrCopy_ok E v.data_ 0 index _ 0 hnew
  split
  · rename_i e src d heq
    rw [heq] at hm
    exact absurd hm.1 (by simp)
  · rename_i src d heq
    rw [heq] at hm
    obtain ⟨-, a2, a3, a4, a5, a6, a7⟩ := hm
    simp only at a2 a3 a4 a5 a6 a7
    have hm2 := MoveOrCopy_ok E src index (v.size_ - index) d (index + 1) a5
    split
    · rename_i e src1 d1 heq1
      rw [heq1] at hm2
      exact absurd hm2.1 (by simp)
    · rename_i src1 d1 heq1
      rw [heq1] at hm2
      obtain ⟨-, b2, b3, b4, b5, b6, b7⟩ := hm2
      simp only at b2 b3 b4 b5 b6 b7
      have hs1 : src1.buffer_.isSome = true := by rw [b3, a3]; exact hsrc
      refine ⟨_, _, rfl, rfl, ?_, b5, fun j hj => ?_, ?_, fun j h1 h2 => ?_, fun j => ?_⟩
      · show d1.capacity_ = v.size_ * 2
        rw [b4, a4, hnewcap]
      · show d1.get j = v.data_.get j
        rw [b6, if_neg (by omega), a6, if_pos (by omega)]
        congr 1; omega
      · show d1.get index = some x
        rw [b6, if_neg (by omega), a6, if_neg (by omega), hnewget, if_pos rfl]
      · show d1.get j = v.data_.get (j - 1)
        rw [b6, if_pos (by omega), a7 _ (by omega)]
        congr 1; omega
      · show (destroy_n src1 0 v.size_).get j = _
        rw [destroy_n_get _ _ _ _ hs1]
        by_cases c : j < v.size_
        · rw [if_pos (by omega), if_pos c]
        · rw [if_neg (by omega), if_neg c, b7 _ (by omega), a7 _ (by omega)]

/-- `Emplace` without faults on a valid vector at an offset up to `end()`: the
call returns the offset, the slots before it keep their values, the slot holds
the new value and the later slots hold the values that were one slot lower. -/
theorem Vector.Emplace_ok (E : Elem T) (pos : Nat) (x : T) (v : Vector T) (hv : v.Valid)
    (hpos : pos ≤ v.size_) :
    ∃ v1, Vector.Emplace E Faults.none pos x v = (Outcome.ok pos, v1) ∧
      v1.size_ = v.size_ + 1 ∧
      v1.data_.capacity_ =
        (if v.data_.capacity_ = v.size_ then (if v.size_ = 0 then 1 else v.size_ * 2)
         else v.data_.capacity_) ∧
      v1.data_.buffer_.isSome = true ∧
      (∀ j, j < pos → v1.data_.get j = v.data_.get j) ∧
      v1.data_.get pos = some x ∧
      (∀ j, pos < j → j ≤ v.size_ → v1.data_.get j = v.data_.get (j - 1)) := by
  have hv1 := hv
  obtain ⟨hle, hmax, hnn⟩ := hv
  unfold PTRDIFF_MAX at hmax
  unfold Vector.Emplace
  simp only [Vector.begin, Vector.end_, RawMemory.Capacity, zero_add, Nat.sub_zero, ge_iff_le,
    Nat.zero_le, true_and]
  rw [if_neg (not_not.mpr hpos)]
  by_cases hend : pos = v.size_
  · rw [if_pos hend]
    obtain ⟨v1, heq, e2, e3, e4, e5, e6⟩ := Vector.EmplaceBack_ok E x v hv1
    rw [heq]
    refine ⟨v1, rfl, e2, e3, e4, fun j hj => e5 j (by omega), by rw [hend]; exact e6,
      fun j h1 h2 => absurd h2 (by omega)⟩
  · rw [if_neg hend]
    have hlt : pos < v.size_ := by omega
    by_cases hcap : v.size_ < v.data_.capacity_
    · rw [if_pos hcap]
      have hsrc : v.data_.buffer_.isSome = true := hnn (by omega)
      split
      · rename_i e heq
        exact absurd heq (by simp [Faults.none])
      · rw [move_fault_none]
        have hcount : v.size_ - (v.size_ - 1 - pos) = pos + 1 := by omega
        rw [hcount]
        have hd1 : ((v.data_.set v.size_ (v.data_.get (v.size_ - 1))).set (v.size_ - 1)
            ((v.data_.get (v.size_ - 1)).map E.moved_from)).buffer_.isSome = true := by
          rw [RawMemory.set_isSome, RawMemory.set_isSome]; exact hsrc
        have hd1s : (v.data_.set v.size_ (v.data_.get (v.size_ - 1))).buffer_.isSome = true := by
          rw [RawMemory.set_isSome]; exact hsrc
        obtain ⟨s1, s2, s3⟩ := move_backward_n_shift E pos (v.size_ - 1 - pos) _ hd1
        have hsz : size_t (v.size_ + 1) = v.size_ + 1 := size_t_of_lt _ (by omega)
        refine ⟨_, rfl, hsz, ?_, ?_, fun j hj => ?_, ?_, fun j h1 h2 => ?_⟩
        · simp only [RawMemory.set_capacity, s1]
          rw [if_neg (by omega)]
        · simp only [RawMemory.set_isSome, s2]
        · simp only
          rw [RawMemory.get_set _ _ _ _ s2, if_neg (by omega), s3]
          simp only [RawMemory.get_set _ _ _ _ hd1s, RawMemory.get_set _ _ _ _ hsrc]
          split_ifs <;> first | rfl | omega
        · simp only
          rw [RawMemory.get_set _ _ _ _ s2, if_pos rfl]
        · simp only
          rw [RawMemory.get_set _ _ _ _ s2, if_neg (by omega), s3]
          simp only [RawMemory.get_set _ _ _ _ hd1s, RawMemory.get_set _ _ _ _ hsrc]
          split_ifs <;> first | rfl | omega | (congr 1; omega)
    · rw [if_neg hcap]
      obtain ⟨v1, scrap, heq, e2, e3, e4, e5, e6, e7, -⟩ :=
        Vector.Emplace_realloc_ok E pos x v hv1 hlt
      rw [heq]
      have hsz : size_t (v1.size_ + 1) = v.size_ + 1 := by
        rw [e2]; exact size_t_of_lt _ (by omega)
      refine ⟨_, rfl, hsz, ?_, e4, e5, e6, e7⟩
      show v1.data_.capacity_ = _
      have hf : v.data_.capacity_ = v.size_ := by omega
      rw [e3, if_pos hf, if_neg (by omega)]

/-- At `pos == end()` the vector after `Emplace` is the vector after
`EmplaceBack`, whatever the faults. -/
theorem Vector.Emplace_end_state (E : Elem T) (F : Faults) (x : T) (v : Vector T) :
    (Vector.Emplace E F v.size_ x v).2 = (Vector.EmplaceBack E F x v).2 := by
  unfold Vector.Emplace
  simp only [Vector.begin, Vector.end_, zero_add, ge_iff_le, Nat.zero_le, le_refl, and_self,
    not_true_eq_false, if_false, if_true]
  split <;> simp_all

theorem Vector.PushBack_of_EmplaceBack (E : Elem T) (F : Faults) (x : T) (v v1 : Vector T)
    (k : Nat) (h : Vector.EmplaceBack E F x v = (Outcome.ok k, v1)) :
    Vector.PushBack E F x v = (Outcome.ok (), v1) := by
  unfold Vector.PushBack
  rw [h]

/-- Pointwise description of a sequence with one value inserted. -/
theorem Vector.elems_insert (v v1 : Vector T) (xs : List T) (i : Nat) (x : T)
    (hxs : v.elems = xs.map some) (hi : i ≤ v.size_)
    (hsize : v1.size_ = v.size_ + 1)
    (hlow : ∀ j, j < i → v1.data_.get j = v.data_.get j)
    (hat : v1.data_.get i = some x)
    (hhigh : ∀ j, i < j → j ≤ v.size_ → v1.data_.get j = v.data_.get (j - 1)) :
    v1.elems = (xs.take i ++ [x] ++ xs.drop i).map some := by
  obtain ⟨hlen, hg⟩ := (Vector.elems_eq_iff v xs).mp hxs
  rw [Vector.elems_eq_iff]
  have hl : (xs.take i ++ [x] ++ xs.drop i).length = xs.length + 1 := by
    simp only [List.length_append, List.length_take, List.length_drop, List.length_singleton]
    omega
  refine ⟨by rw [hsize, hl, hlen], fun j hj => ?_⟩
  rw [hl] at hj
  rw [List.append_assoc, List.singleton_append,
    List.getElem?_take_cons_drop xs i x (by omega) j]
  by_cases c1 : j < i
  · rw [if_pos c1, hlow j c1, hg j (by omega)]
  · rw [if_neg c1]
    by_cases c2 : j = i
    · rw [if_pos c2, c2, hat]
    · rw [if_neg c2, hhigh j (by omega) (by omega), hg (j - 1) (by omega)]

theorem size_t_dec_pos (n : Nat) (h0 : 0 < n) (h : n < 2 ^ 64) : size_t_dec n = n - 1 := by
  unfold size_t_dec size_t
  omega

/-- `Erase` on a valid vector at the offset of a live element: the call
returns the offset, the slots before it keep their values, the later slots
hold the values that were one slot higher, and the last slot is destroyed. -/
theorem Vector.Erase_ok (E : Elem T) (pos : Nat) (v : Vector T) (hv : v.Valid)
    (hpos : pos < v.size_) :
    ∃ v1, Vector.Erase E pos v = (Outcome.ok pos, v1) ∧
      v1.size_ = v.size_ - 1 ∧
      v1.data_.capacity_ = v.data_.capacity_ ∧
      v1.data_.buffer_.isSome = true ∧
      (∀ j, j < pos → v1.data_.get j = v.data_.get j) ∧
      (∀ j, pos ≤ j → j < v.size_ - 1 → v1.data_.get j = v.data_.get (j + 1)) ∧
      v1.data_.get (v.size_ - 1) = none := by
  obtain ⟨hle, hmax, hnn⟩ := hv
  unfold PTRDIFF_MAX at hmax
  unfold Vector.Erase
  simp only [Vector.begin, Vector.end_, zero_add, Nat.sub_zero, ge_iff_le, Nat.zero_le, true_and]
  have hsrc : v.data_.buffer_.isSome = true := hnn (by omega)
  rw [if_neg (not_not.mpr (Nat.le_of_lt hpos)), if_neg (by omega : ¬ v.size_ = 0)]
  obtain ⟨s1, s2, s3⟩ := move_n_shift E pos (v.size_ - (pos + 1)) v.data_ hsrc
  refine ⟨_, rfl, size_t_dec_pos _ (by omega) (by omega), ?_, ?_, fun j hj => ?_,
    fun j h1 h2 => ?_, ?_⟩
  · simp only [RawMemory.set_capacity, s1]
  · simp only [RawMemory.set_isSome, s2]
  · simp only
    rw [RawMemory.get_set _ _ _ _ s2, if_neg (by omega), s3, if_neg (by omega),
      if_neg (by omega)]
  · simp only
    rw [RawMemory.get_set _ _ _ _ s2, if_neg (by omega), s3, if_pos (by omega)]
  · simp only
    rw [RawMemory.get_set _ _ _ _ s2, if_pos rfl]

/-- Pointwise description of a sequence with one entry removed. -/
theorem Vector.elems_erase (v v1 : Vector T) (xs : List T) (i : Nat)
    (hxs : v.elems = xs.map some) (hi : i < v.size_)
    (hsize : v1.size_ = v.size_ - 1)
    (hlow : ∀ j, j < i → v1.data_.get j = v.data_.get j)
    (hhigh : ∀ j, i ≤ j → j < v.size_ - 1 → v1.data_.get j = v.data_.get (j + 1)) :
    v1.elems = (xs.eraseIdx i).map some := by
  obtain ⟨hlen, hg⟩ := (Vector.elems_eq_iff v xs).mp hxs
  rw [Vector.elems_eq_iff]
  have hl : (xs.eraseIdx i).length = xs.length - 1 :=
    List.length_eraseIdx_of_lt (by omega)
  refine ⟨by rw [hsize, hl, hlen], fun j hj => ?_⟩
  rw [hl] at hj
  rw [List.getElem?_eraseIdx]
  by_cases c1 : j < i
  · rw [if_pos c1, hlow j c1, hg j (by omega)]
  · rw [if_neg c1, hhigh j (by omega) (by omega), hg (j + 1) (by omega)]

/-- `Reserve` returns at once when `size_ >= new_capacity`. -/
theorem Vector.Reserve_small (E : Elem T) (F : Faults) (n : Nat) (v : Vector T)
    (h : n ≤ v.size_) : Vector.Reserve E F n v = (Outcome.ok (), v) := by
  unfold Vector.Reserve
  rw [if_pos h]

/-- `Reserve` without faults for `size_ < new_capacity`: a block of exactly
`new_capacity` slots replaces the old one and the live slots keep their
values. -/
theorem Vector.Reserve_grow (E : Elem T) (n : Nat) (v : Vector T) (h : v.size_ < n) :
    ∃ v1, Vector.Reserve E Faults.none n v = (Outcome.ok (), v1) ∧
      v1.size_ = v.size_ ∧
      v1.data_.capacity_ = n ∧
      v1.data_.buffer_.isSome = true ∧
      (∀ j, j < v.size_ → v1.data_.get j = v.data_.get j) ∧
      (∀ j, v.size_ ≤ j → v1.data_.get j = none) := by
  unfold Vector.Reserve
  simp only [Vector.begin, ge_iff_le, RawMemory.ctor_throws_none]
  rw [if_neg (by omega)]
  have hnew : (RawMemory.ctor E n).buffer_.isSome = true :=
    RawMemory.ctor_isSome E n (by omega)
  have hm := MoveOrCopy_ok E v.data_ 0 v.size_ _ 0 hnew
  split
  · rename_i e src d heq
    rw [heq] at hm
    exact absurd hm.1 (by simp)
  · rename_i src d heq
    rw [heq] at hm
    obtain ⟨-, -, -, a4, a5, a6, -⟩ := hm
    simp only at a4 a5 a6
    refine ⟨_, rfl, rfl, ?_, a5, fun j hj => ?_, fun j hj => ?_⟩
    · show d.capacity_ = n
      rw [a4, RawMemory.ctor_capacity]
    · show d.get j = v.data_.get j
      rw [a6, if_pos (by omega)]
      congr 1; omega
    · show d.get j = none
      rw [a6, if_neg (by omega), RawMemory.ctor_get]

/-- Two vectors of the same length whose live slots agree show the same
sequence. -/
theorem Vector.elems_congr (v v1 : Vector T) (hsize : v1.size_ = v.size_)
    (hget : ∀ j, j < v.size_ → v1.data_.get j = v.data_.get j) : v1.elems = v.elems := by
  unfold Vector.elems
  rw [hsize]
  apply List.map_congr_left
  intro j hj
  exact hget j (List.mem_range.mp hj)

/-- `Resize` without faults on a valid vector: the call returns, the length
is `new_size`, the slots kept keep their values and the slots exposed hold
value-initialised objects. -/
theorem Vector.Resize_ok (E : Elem T) (n : Nat) (v : Vector T) (hv : v.Valid) :
    ∃ v1, Vector.Resize E Faults.none n v = (Outcome.ok (), v1) ∧
      v1.size_ = n ∧
      v1.data_.capacity_ =
        (if n ≤ v.data_.capacity_ then v.data_.capacity_ else max (v.data_.capacity_ * 2) n) ∧
      (∀ j, j < n → j < v.size_ → v1.data_.get j = v.data_.get j) ∧
      (∀ j, v.size_ ≤ j → j < n → v1.data_.get j = some E.value_init) := by
  obtain ⟨hle, hmax, hnn⟩ := hv
  unfold PTRDIFF_MAX at hmax
  unfold Vector.Resize
  have hF : Faults.none.value_init = fun _ => none := rfl
  simp only [Vector.begin, zero_add, RawMemory.Capacity, gt_iff_lt, hF]
  by_cases h1 : n < v.size_
  · rw [if_pos h1]
    have hsrc : v.data_.buffer_.isSome = true := hnn (by omega)
    refine ⟨_, rfl, rfl, ?_, fun j hj _ => ?_, fun j h2 h3 => absurd h3 (by omega)⟩
    · show (destroy_n v.data_ n (v.size_ - n)).capacity_ = _
      rw [destroy_n_capacity, if_pos (by omega)]
    · show (destroy_n v.data_ n (v.size_ - n)).get j = _
      rw [destroy_n_get _ _ _ _ hsrc, if_neg (by omega)]
  · rw [if_neg h1]
    by_cases h2 : v.size_ = n
    · rw [if_pos h2]
      refine ⟨v, rfl, h2, ?_, fun j _ _ => rfl, fun j h3 h4 => absurd h4 (by omega)⟩
      rw [if_pos (by omega)]
    · rw [if_neg h2]
      have hdbl : size_t (v.data_.capacity_ * 2) = v.data_.capacity_ * 2 :=
        size_t_of_lt _ (by omega)
      rw [hdbl]
      by_cases h3 : v.data_.capacity_ < n
      · rw [if_pos h3]
        obtain ⟨w, heq, e2, e3, e4, e5, -⟩ :=
          Vector.Reserve_grow E (max (v.data_.capacity_ * 2) n) v
            (lt_of_lt_of_le (by omega : v.size_ < n) (le_max_right _ _))
        rw [heq]
        simp only
        have hu := uninitialized_value_construct_n_ok E w.size_ (n - w.size_) w.data_ e4
        split
        · rename_i e d hq
          rw [hq] at hu
          exact absurd hu.1 (by simp)
        · rename_i d hq
          rw [hq] at hu
          obtain ⟨-, u2, -, u4⟩ := hu
          simp only at u2 u4
          refine ⟨_, rfl, rfl, ?_, fun j h4 h5 => ?_, fun j h4 h5 => ?_⟩
          · show d.capacity_ = _
            rw [u2, e3, if_neg (by omega)]
          · show d.get j = _
            rw [u4, if_neg (by omega), e5 j h5]
          · show d.get j = _
            rw [u4, if_pos (by omega)]
      · rw [if_neg h3]
        simp only
        have hsrc : v.data_.buffer_.isSome = true := hnn (by omega)
        have hu := uninitialized_value_construct_n_ok E v.size_ (n - v.size_) v.data_ hsrc
        split
        · rename_i e d hq
          rw [hq] at hu
          exact absurd hu.1 (by simp)
        · rename_i d hq
          rw [hq] at hu
          obtain ⟨-, u2, -, u4⟩ := hu
          simp only at u2 u4
          refine ⟨_, rfl, rfl, ?_, fun j h4 h5 => ?_, fun j h4 h5 => ?_⟩
          · show d.capacity_ = _
            rw [u2, if_pos (by omega)]
          · show d.get j = _
            rw [u4, if_neg (by omega)]
          · show d.get j = _
            rw [u4, if_pos (by omega)]

/-- Pointwise description of a sequence cut or padded to a length. -/
theorem Vector.elems_resize (v v1 : Vector T) (xs : List T) (n : Nat) (d : T)
    (hxs : v.elems = xs.map some)
    (hsize : v1.size_ = n)
    (hkeep : ∀ j, j < n → j < v.size_ → v1.data_.get j = v.data_.get j)
    (hnew : ∀ j, v.size_ ≤ j → j < n → v1.data_.get j = some d) :
    v1.elems = (xs.take (min n xs.length) ++ List.replicate (n - xs.length) d).map some := by
  obtain ⟨hlen, hg⟩ := (Vector.elems_eq_iff v xs).mp hxs
  rw [Vector.elems_eq_iff]
  have hl : (xs.take (min n xs.length) ++ List.replicate (n - xs.length) d).length = n := by
    simp only [List.length_append, List.length_take, List.length_replicate]
    omega
  refine ⟨by rw [hsize, hl], fun j hj => ?_⟩
  rw [hl] at hj
  have htl : (xs.take (min n xs.length)).length = min n xs.length := by
    simp only [List.length_take]
    omega
  by_cases c : j < xs.length
  · rw [List.getElem?_append_left (by rw [htl]; omega),
      List.getElem?_take_of_lt (by omega), hkeep j hj (by omega), hg j c]
  · rw [List.getElem?_append_right (by rw [htl]; omega), hnew j (by omega) hj,
      List.getElem?_replicate, if_pos (by rw [htl]; omega)]

/-- `Vector(const Vector&)` without faults: a block of exactly `other.size_`
slots holding the elements of `other`. -/
theorem Vector.ctor_copy_ok (E : Elem T) (other : Vector T) :
    ∃ w, Vector.ctor_copy E Faults.none other = Except.ok w ∧
      w.size_ = other.size_ ∧
      w.data_.capacity_ = other.size_ ∧
      (∀ j, j < other.size_ → w.data_.get j = other.data_.get j) := by
  unfold Vector.ctor_copy
  have hF : Faults.none.copy = fun _ => none := rfl
  simp only [Vector.begin, hF, RawMemory.ctor_throws_none]
  by_cases hz : other.size_ = 0
  · rw [hz]
    exact ⟨_, rfl, rfl, rfl, fun j hj => absurd hj (by omega)⟩
  · have hu := uninitialized_copy_n_ok other.data_ 0 other.size_ (RawMemory.ctor E other.size_) 0
      (RawMemory.ctor_isSome E _ hz)
    split
    · rename_i e d hq
      rw [hq] at hu
      exact absurd hu.1 (by simp)
    · rename_i d hq
      rw [hq] at hu
      obtain ⟨-, u2, -, u4⟩ := hu
      simp only at u2 u4
      refine ⟨_, rfl, rfl, ?_, fun j hj => ?_⟩
      · show d.capacity_ = _
        rw [u2, RawMemory.ctor_capacity]
      · show d.get j = _
        rw [u4, if_pos (by omega)]
        congr 1; omega

/-- `operator=(const Vector&)` without faults on a valid destination: the
destination has the length and the elements of `rhs`; its block is kept when
`rhs.size_` fits and is otherwise one of exactly `rhs.size_` slots. -/
theorem Vector.assign_copy_ok (E : Elem T) (v rhs : Vector T) (hv : v.Valid) :
    ∃ v1, Vector.assign_copy E Faults.none v rhs = (Outcome.ok (), v1) ∧
      v1.size_ = rhs.size_ ∧
      v1.data_.capacity_ =
        (if rhs.size_ ≤ v.data_.capacity_ then v.data_.capacity_ else rhs.size_) ∧
      (∀ j, j < rhs.size_ → v1.data_.get j = rhs.data_.get j) := by
  obtain ⟨hle, hmax, hnn⟩ := hv
  unfold Vector.assign_copy
  have hF : Faults.none.copy = fun _ => none := rfl
  simp only [Vector.begin, zero_add, RawMemory.Capacity, gt_iff_lt, hF]
  by_cases h1 : v.data_.capacity_ < rhs.size_
  · rw [if_pos h1]
    obtain ⟨w, hw, w2, w3, w4⟩ := Vector.ctor_copy_ok E rhs
    rw [hw]
    refine ⟨_, rfl, w2, ?_, w4⟩
    show w.data_.capacity_ = _
    rw [w3, if_neg (by omega)]
  · rw [if_neg h1]
    by_cases hz : rhs.size_ = 0 ∧ v.size_ = 0
    · obtain ⟨hz1, hz2⟩ := hz
      rw [hz1, hz2]
      refine ⟨_, rfl, rfl, ?_, fun j hj => absurd hj (by omega)⟩
      show v.data_.capacity_ = _
      rw [if_pos (by omega)]
    · have hsrc : v.data_.buffer_.isSome = true := hnn (by omega)
      obtain ⟨c1, c2, c3⟩ := copy_n_ok rhs.data_ 0 (min v.size_ rhs.size_) v.data_ 0 hsrc
      by_cases h2 : rhs.size_ < v.size_
      · rw [if_pos h2]
        refine ⟨_, rfl, rfl, ?_, fun j hj => ?_⟩
        · show (destroy_n _ _ _).capacity_ = _
          rw [destroy_n_capacity, c1, if_pos (by omega)]
        · show (destroy_n _ _ _).get j = _
          rw [destroy_n_get _ _ _ _ c2, if_neg (by omega), c3,
            if_pos ⟨Nat.zero_le _, by rw [Nat.min_eq_right (by omega)]; omega⟩]
          congr 1; omega
      · rw [if_neg h2]
        have hu := uninitialized_copy_n_ok rhs.data_ v.size_ (rhs.size_ - v.size_)
          (copy_n rhs.data_ 0 (min v.size_ rhs.size_) v.data_ 0) v.size_ c2
        split
        · rename_i e d hq
          rw [hq] at hu
          exact absurd hu.1 (by simp)
        · rename_i d hq
          rw [hq] at hu
          obtain ⟨-, u2, -, u4⟩ := hu
          simp only at u2 u4
          refine ⟨_, rfl, rfl, ?_, fun j hj => ?_⟩
          · show d.capacity_ = _
            rw [u2, c1, if_pos (by omega)]
          · show d.get j = _
            rw [u4]
            by_cases c : v.size_ ≤ j
            · rw [if_pos (by omega)]
              congr 1; omega
            · rw [if_neg (by omega), c3,
                if_pos ⟨Nat.zero_le _, by rw [Nat.min_eq_left (by omega)]; omega⟩]
              congr 1; omega

/-- A copy that throws inside the range makes `std::uninitialized_copy_n`
throw. -/
theorem uninitialized_copy_n_throws (fault : Nat → Option Exn) (src : RawMemory T)
    (first count : Nat) (dst : RawMemory T) (result : Nat)
    (h : ∃ k, k < count ∧ (fault (first + k)).isSome = true) :
    ∃ e, (uninitialized_copy_n fault src first count dst result).1 = some e := by
  induction count with
  | zero =>
    obtain ⟨k, hk, -⟩ := h
    exact absurd hk (by omega)
  | succ n ih =>
    obtain ⟨k, hk, hf⟩ := h
    simp only [uninitialized_copy_n]
    rcases hr : uninitialized_copy_n fault src first n dst result with ⟨r, d⟩
    cases r with
    | some e => exact ⟨e, rfl⟩
    | none =>
      simp only
      cases hfn : fault (first + n) with
      | some e => exact ⟨e, rfl⟩
      | none =>
        have hkn : k < n := by
          rcases Nat.lt_or_ge k n with hlt | hge
          · exact hlt
          · have hkeq : k = n := by omega
            rw [hkeq, hfn] at hf
            simp at hf
        obtain ⟨e, he⟩ := ih ⟨k, hkn, hf⟩
        rw [hr] at he
        simp at he

/-- On the copying path `MoveOrCopy` is `std::uninitialized_copy_n` and hands
the source block back as it was. -/
theorem MoveOrCopy_copy (E : Elem T) (F : Faults) (src dst : RawMemory T)
    (first count result : Nat) (h : MoveOrCopy_moves E = false) :
    MoveOrCopy E F src first count dst result
      = ((uninitialized_copy_n F.copy src first count dst result).1, src,
         (uninitialized_copy_n F.copy src first count dst result).2) := by
  unfold MoveOrCopy
  rw [if_neg (by rw [h]; simp)]

/-- On the moving path `MoveOrCopy` is `std::uninitialized_move_n`. -/
theorem MoveOrCopy_move (E : Elem T) (F : Faults) (src dst : RawMemory T)
    (first count result : Nat) (h : MoveOrCopy_moves E = true) :
    MoveOrCopy E F src first count dst result
      = uninitialized_move_n E (move_fault E F) first count src dst result := by
  unfold MoveOrCopy
  rw [if_pos h]

/-- On the copying path a copy that throws inside the range makes `MoveOrCopy`
throw with the source block as it was. -/
theorem MoveOrCopy_copy_throws (E : Elem T) (F : Faults) (src dst : RawMemory T)
    (first count result : Nat) (h : MoveOrCopy_moves E = false)
    (hf : ∃ k, k < count ∧ (F.copy (first + k)).isSome = true) :
    ∃ e d, MoveOrCopy E F src first count dst result = (some e, src, d) := by
  obtain ⟨e, he⟩ := uninitialized_copy_n_throws F.copy src first count dst result hf
  refine ⟨e, (uninitialized_copy_n F.copy src first count dst result).2, ?_⟩
  rw [MoveOrCopy_copy E F src dst first count result h, he]

/-- On the copying path `MoveOrCopy` returns `none` or throws, and in both
cases hands the source block back as it was. -/
theorem MoveOrCopy_copy_cases (E : Elem T) (F : Faults) (src dst : RawMemory T)
    (first count result : Nat) (h : MoveOrCopy_moves E = false) :
    ∃ r d, MoveOrCopy E F src first count dst result = (r, src, d) ∧
      (r = none → ∀ k, k < count → F.copy (first + k) = none) := by
  refine ⟨_, _, MoveOrCopy_copy E F src dst first count result h, fun hr k hk => ?_⟩
  by_contra hne
  obtain ⟨e, he⟩ := uninitialized_copy_n_throws F.copy src first count dst result
    ⟨k, hk, by
      cases hc : F.copy (first + k) with
      | none => exact absurd hc hne
      | some e => rfl⟩
  rw [he] at hr
  simp at hr

theorem MoveOrCopy_moves_false (E : Elem T) (hc : E.is_copy_constructible = true)
    (hn : E.is_nothrow_move_constructible = false) : MoveOrCopy_moves E = false := by
  unfold MoveOrCopy_moves
  rw [hc, hn]
  rfl

/-- Reallocating `Reserve` on the copying path: a copy that throws makes the
call throw and leaves the vector as it was. -/
theorem Vector.Reserve_copy_throws (E : Elem T) (F : Faults) (n : Nat) (v : Vector T)
    (hm : MoveOrCopy_moves E = false) (hlt : v.size_ < n)
    (hf : ∃ k, k < v.size_ ∧ (F.copy k).isSome = true) :
    ∃ e, Vector.Reserve E F n v = (Outcome.threw e, v) := by
  obtain ⟨k, hk, hfk⟩ := hf
  obtain ⟨e, d, hq⟩ := MoveOrCopy_copy_throws E F v.data_ (RawMemory.ctor E n) 0 v.size_ 0 hm
    ⟨k, hk, by rw [zero_add]; exact hfk⟩
  unfold Vector.Reserve
  simp only [Vector.begin, ge_iff_le]
  rw [if_neg (by omega)]
  split
  · exact ⟨_, rfl⟩
  · rw [hq]
    exact ⟨e, rfl⟩

/-- Reallocating `EmplaceBack` on the copying path: a throwing construction of
the new element or a copy that throws makes the call throw and leaves the
vector as it was. -/
theorem Vector.EmplaceBack_copy_throws (E : Elem T) (F : Faults) (x : T) (v : Vector T)
    (hm : MoveOrCopy_moves E = false) (hfull : v.data_.capacity_ = v.size_)
    (hf : F.construct.isSome = true ∨ ∃ k, k < v.size_ ∧ (F.copy k).isSome = true) :
    ∃ e, Vector.EmplaceBack E F x v = (Outcome.threw e, v) := by
  unfold Vector.EmplaceBack
  simp only [Vector.begin, RawMemory.Capacity]
  rw [if_pos hfull]
  split
  · exact ⟨_, rfl⟩
  · split
    · rename_i e hc
      exact ⟨e, rfl⟩
    · rename_i hc
      rw [hc] at hf
      rcases hf with h0 | ⟨k, hk, hfk⟩
      · simp at h0
      · obtain ⟨e, d, hq⟩ := MoveOrCopy_copy_throws E F v.data_
          ((RawMemory.ctor E (if v.size_ = 0 then 1 else size_t (v.size_ * 2))).set v.size_
            (some x)) 0 v.size_ 0 hm ⟨k, hk, by rw [zero_add]; exact hfk⟩
        rw [if_pos (by omega), hq]
        exact ⟨e, rfl⟩

/-- Reallocating branch of `Emplace` on the copying path: a throwing
construction of the new element or a copy that throws makes the branch throw
and leaves the vector as it was. -/
theorem Vector.Emplace_realloc_copy_throws (E : Elem T) (F : Faults) (index : Nat) (x : T)
    (v : Vector T) (hm : MoveOrCopy_moves E = false) (hi : index ≤ v.size_)
    (hf : F.construct.isSome = true ∨ ∃ k, k < v.size_ ∧ (F.copy k).isSome = true) :
    ∃ e scrap, Vector.Emplace_realloc E F index x v = (some e, v, scrap) := by
  unfold Vector.Emplace_realloc
  simp only [Vector.begin, zero_add]
  split
  · exact ⟨_, _, rfl⟩
  · split
    · rename_i e hc
      exact ⟨e, _, rfl⟩
    · rename_i hc
      rw [hc] at hf
      rcases hf with h0 | ⟨k, hk, hfk⟩
      · simp at h0
      · obtain ⟨r, d, hq, hr⟩ := MoveOrCopy_copy_cases E F v.data_
          ((RawMemory.ctor E (if v.size_ = 0 then 1 else size_t (v.size_ * 2))).set index
            (some x)) 0 index 0 hm
        rw [hq]
        cases r with
        | some e => exact ⟨e, _, rfl⟩
        | none =>
          simp only
          have hge : index ≤ k := by
            by_contra hlt
            have := hr rfl k (by omega)
            rw [zero_add] at this
            rw [this] at hfk
            simp at hfk
          obtain ⟨e, d2, hq2⟩ := MoveOrCopy_copy_throws E F v.data_ d index (v.size_ - index)
            (index + 1) hm ⟨k - index, by omega, by
              have : index + (k - index) = k := by omega
              rw [this]; exact hfk⟩
          rw [hq2]
          exact ⟨e, _, rfl⟩

/-- Reallocating `Emplace` on the copying path: a throwing construction of the
new element or a copy that throws makes the call throw and leaves the vector
as it was. -/
theorem Vector.Emplace_copy_throws (E : Elem T) (F : Faults) (pos : Nat) (x : T)
    (v : Vector T) (hm : MoveOrCopy_moves E = false) (hpos : pos ≤ v.size_)
    (hfull : v.data_.capacity_ = v.size_)
    (hf : F.construct.isSome = true ∨ ∃ k, k < v.size_ ∧ (F.copy k).isSome = true) :
    ∃ e, Vector.Emplace E F pos x v = (Outcome.threw e, v) := by
  unfold Vector.Emplace
  simp only [Vector.begin, Vector.end_, RawMemory.Capacity, zero_add, Nat.sub_zero, ge_iff_le,
    Nat.zero_le, true_and]
  rw [if_neg (not_not.mpr hpos)]
  by_cases hend : pos = v.size_
  · rw [if_pos hend]
    obtain ⟨e, he⟩ := Vector.EmplaceBack_copy_throws E F x v hm hfull hf
    rw [he]
    exact ⟨e, rfl⟩
  · rw [if_neg hend, if_neg (by omega)]
    obtain ⟨e, scrap, he⟩ := Vector.Emplace_realloc_copy_throws E F pos x v hm hpos hf
    rw [he]
    exact ⟨e, rfl⟩

end Mutators

/-! ## Further behaviour of the mutators and constructors -/

section MoreMutators

variable {T : Type}

/-- `Erase` at the offset of a live element of a vector that owns a block: as
`Vector.Erase_ok`, from the facts that proof uses. -/
theorem Vector.Erase_ok_live (E : Elem T) (pos : Nat) (v : Vector T)
    (hsrc : v.data_.buffer_.isSome = true) (hsz : v.size_ < 2 ^ 64) (hpos : pos < v.size_) :
    ∃ v1, Vector.Erase E pos v = (Outcome.ok pos, v1) ∧
      v1.size_ = v.size_ - 1 ∧
      v1.data_.capacity_ = v.data_.capacity_ ∧
      (∀ j, j < pos → v1.data_.get j = v.data_.get j) ∧
      (∀ j, pos ≤ j → j < v.size_ - 1 → v1.data_.get j = v.data_.get (j + 1)) := by
  unfold Vector.Erase
  simp only [Vector.begin, Vector.end_, zero_add, Nat.sub_zero, ge_iff_le, Nat.zero_le, true_and]
  rw [if_neg (not_not.mpr (Nat.le_of_lt hpos)), if_neg (by omega : ¬ v.size_ = 0)]
  obtain ⟨s1, s2, s3⟩ := move_n_shift E pos (v.size_ - (pos + 1)) v.data_ hsrc
  refine ⟨_, rfl, size_t_dec_pos _ (by omega) hsz, ?_, fun j hj => ?_, fun j h1 h2 => ?_⟩
  · simp only [RawMemory.set_capacity, s1]
  · simp only
    rw [RawMemory.get_set _ _ _ _ s2, if_neg (by omega), s3, if_neg (by omega),
      if_neg (by omega)]
  · simp only
    rw [RawMemory.get_set _ _ _ _ s2, if_neg (by omega), s3, if_pos (by omega)]

/-- `PopBack` on an empty vector returns and changes nothing. -/
theorem Vector.PopBack_empty (v : Vector T) (h : v.size_ = 0) :
    Vector.PopBack v = (Outcome.ok (), v) := by
  unfold Vector.PopBack Vector.Empty
  simp [h]

/-- `PopBack` on a valid non-empty vector: the call returns, the last slot is
destroyed, the other slots and the capacity are kept. -/
theorem Vector.PopBack_ok (v : Vector T) (hv : v.Valid) (h : v.size_ ≠ 0) :
    ∃ v1, Vector.PopBack v = (Outcome.ok (), v1) ∧
      v1.size_ = v.size_ - 1 ∧
      v1.data_.capacity_ = v.data_.capacity_ ∧
      (∀ j, j < v.size_ - 1 → v1.data_.get j = v.data_.get j) ∧
      v1.data_.get (v.size_ - 1) = none := by
  obtain ⟨hle, hmax, hnn⟩ := hv
  unfold PTRDIFF_MAX at hmax
  have hsrc : v.data_.buffer_.isSome = true := hnn (by omega)
  have hdec : size_t_dec v.size_ = v.size_ - 1 := size_t_dec_pos _ (by omega) (by omega)
  unfold Vector.PopBack Vector.Empty
  simp only [h, decide_False, Bool.not_false, if_true, hdec]
  rw [if_pos (by omega)]
  refine ⟨_, rfl, rfl, ?_, fun j hj => ?_, ?_⟩
  · show (v.data_.set (v.size_ - 1) none).capacity_ = _
    rw [RawMemory.set_capacity]
  · show (v.data_.set (v.size_ - 1) none).get j = _
    rw [RawMemory.get_set _ _ _ _ hsrc, if_neg (by omega)]
  · show (v.data_.set (v.size_ - 1) none).get (v.size_ - 1) = _
    rw [RawMemory.get_set _ _ _ _ hsrc, if_pos rfl]

/-- `Vector(size_t size)` without faults: a block of exactly `size` slots, all
holding value-initialised objects. -/
theorem Vector.ctor_size_ok (E : Elem T) (n : Nat) :
    ∃ w, Vector.ctor_size E Faults.none n = Except.ok w ∧
      w.size_ = n ∧
      w.data_.capacity_ = n ∧
      (∀ j, j < n → w.data_.get j = some E.value_init) := by
  unfold Vector.ctor_size
  have hF : Faults.none.value_init = fun _ => none := rfl
  simp only [hF, RawMemory.ctor_throws_none]
  by_cases hz : n = 0
  · rw [hz]
    exact ⟨_, rfl, rfl, rfl, fun j hj => absurd hj (by omega)⟩
  · have hu := uninitialized_value_construct_n_ok E 0 n (RawMemory.ctor E n)
      (RawMemory.ctor_isSome E _ hz)
    split
    · rename_i e d hq
      rw [hq] at hu
      exact absurd hu.1 (by simp)
    · rename_i d hq
      rw [hq] at hu
      obtain ⟨-, u2, -, u4⟩ := hu
      simp only at u2 u4
      refine ⟨_, rfl, rfl, ?_, fun j hj => ?_⟩
      · show d.capacity_ = _
        rw [u2, RawMemory.ctor_capacity]
      · show d.get j = _
        rw [u4, if_pos (by omega)]

/-- `PushBack` without faults into spare capacity: the call returns, the block
is the old one with the new value stored in the slot at the old length. -/
theorem Vector.PushBack_spare (E : Elem T) (x : T) (v : Vector T)
    (hlt : v.size_ < v.data_.capacity_) (hc : v.data_.capacity_ < 2 ^ 64) :
    Vector.PushBack E Faults.none x v
      = (Outcome.ok (), { data_ := v.data_.set v.size_ (some x), size_ := v.size_ + 1 }) := by
  apply Vector.PushBack_of_EmplaceBack E Faults.none x v _ v.size_
  rw [Vector.EmplaceBack_none_eq, if_neg (by omega), zero_add]
  rw [Vector.EmplaceBack_return_eq _ (by rw [RawMemory.set_capacity]; exact hlt)
    (by rw [RawMemory.set_capacity]; exact hc)]

/-- Pushing the values `ys` into a vector with contents `xs` that has room for
all of them: every call returns, the capacity is kept and the contents are
`xs ++ ys`. -/
theorem PushBack_all_spare (E : Elem T) (ys : List T) (v : Vector T) (xs : List T)
    (hroom : v.size_ + ys.length ≤ v.data_.capacity_) (hc : v.data_.capacity_ < 2 ^ 64)
    (hnn : v.data_.capacity_ ≠ 0 → v.data_.buffer_.isSome = true)
    (hxs : v.elems = xs.map some) :
    ∃ v1, PushBack_all E Faults.none ys v = (Outcome.ok (), v1) ∧
      v1.size_ = v.size_ + ys.length ∧
      v1.data_.capacity_ = v.data_.capacity_ ∧
      v1.elems = (xs ++ ys).map some := by
  induction ys generalizing v xs with
  | nil =>
    refine ⟨v, rfl, rfl, rfl, ?_⟩
    rw [List.append_nil]; exact hxs
  | cons y ys ih =>
    rw [List.length_cons] at hroom
    have hsrc : v.data_.buffer_.isSome = true := hnn (by omega)
    have hpush := Vector.PushBack_spare E y v (by omega) hc
    obtain ⟨hlen, hg⟩ := (Vector.elems_eq_iff v xs).mp hxs
    have hxs1 : (Vector.mk (v.data_.set v.size_ (some y)) (v.size_ + 1)).elems
        = (xs ++ [y]).map some := by
      rw [Vector.elems_eq_iff]
      refine ⟨by simp [hlen], fun j hj => ?_⟩
      show (v.data_.set v.size_ (some y)).get j = _
      rw [RawMemory.get_set _ _ _ _ hsrc]
      rw [List.length_append, List.length_singleton] at hj
      by_cases c : j = v.size_
      · rw [if_pos c, c, hlen, List.getElem?_append_right (le_refl _)]
        simp
      · rw [if_neg c, List.getElem?_append_left (by omega), hg j (by omega)]
    obtain ⟨v1, h1, h2, h3, h4⟩ := ih (Vector.mk (v.data_.set v.size_ (some y)) (v.size_ + 1))
      (xs ++ [y])
      (by simp only [RawMemory.set_capacity]; omega)
      (by simp only [RawMemory.set_capacity]; exact hc)
      (fun _ => by simp only [RawMemory.set_isSome]; exact hsrc)
      hxs1
    refine ⟨v1, ?_, ?_, ?_, ?_⟩
    · simp only [PushBack_all, hpush]
      exact h1
    · rw [h2, List.length_cons]
      show v.size_ + 1 + ys.length = _
      omega
    · rw [h3, RawMemory.set_capacity]
    · rw [h4, List.append_assoc, List.singleton_append]

/-- Whatever the faults, `std::uninitialized_value_construct_n` keeps the
capacity and the slots before `first`. -/
theorem uninitialized_value_construct_n_below (E : Elem T) (fault : Nat → Option Exn)
    (first count : Nat) (m : RawMemory T) (h : m.buffer_.isSome = true) :
    (uninitialized_value_construct_n E fault first count m).2.capacity_ = m.capacity_ ∧
    (uninitialized_value_construct_n E fault first count m).2.buffer_.isSome = true ∧
    ∀ j, j < first →
      (uninitialized_value_construct_n E fault first count m).2.get j = m.get j := by
  induction count with
  | zero => exact ⟨rfl, h, fun _ _ => rfl⟩
  | succ n ih =>
    obtain ⟨h1, h2, h3⟩ := ih
    simp only [uninitialized_value_construct_n]
    rcases hr : uninitialized_value_construct_n E fault first n m with ⟨r, d⟩
    rw [hr] at h1 h2 h3
    simp only at h1 h2 h3
    cases r with
    | some e => exact ⟨h1, h2, h3⟩
    | none =>
      simp only
      cases hf : fault (first + n) with
      | some e =>
        refine ⟨?_, ?_, fun j hj => ?_⟩
        · show (destroy_n d first n).capacity_ = _
          rw [destroy_n_capacity, h1]
        · show (destroy_n d first n).buffer_.isSome = _
          rw [destroy_n_isSome, h2]
        · show (destroy_n d first n).get j = _
          rw [destroy_n_get _ _ _ _ h2, if_neg (by omega), h3 j hj]
      | none =>
        refine ⟨?_, ?_, fun j hj => ?_⟩
        · show (d.set (first + n) (some E.value_init)).capacity_ = _
          rw [RawMemory.set_capacity, h1]
        · show (d.set (first + n) (some E.value_init)).buffer_.isSome = _
          rw [RawMemory.set_isSome, h2]
        · show (d.set (first + n) (some E.value_init)).get j = _
          rw [RawMemory.get_set _ _ _ _ h2, if_neg (by omega), h3 j hj]

/-- A value-initialisation that throws inside the range makes
`std::uninitialized_value_construct_n` throw. -/
theorem uninitialized_value_construct_n_throws (E : Elem T) (fault : Nat → Option Exn)
    (first count : Nat) (m : RawMemory T)
    (h : ∃ k, k < count ∧ (fault (first + k)).isSome = true) :
    ∃ e, (uninitialized_value_construct_n E fault first count m).1 = some e := by
  induction count with
  | zero =>
    obtain ⟨k, hk, -⟩ := h
    exact absurd hk (by omega)
  | succ n ih =>
    obtain ⟨k, hk, hf⟩ := h
    simp only [uninitialized_value_construct_n]
    rcases hr : uninitialized_value_construct_n E fault first n m with ⟨r, d⟩
    cases r with
    | some e => exact ⟨e, rfl⟩
    | none =>
      simp only
      cases hfn : fault (first + n) with
      | some e => exact ⟨e, rfl⟩
      | none =>
        have hkn : k < n := by
          rcases Nat.lt_or_ge k n with hlt | hge
          · exact hlt
          · have hkeq : k = n := by omega
            rw [hkeq, hfn] at hf
            simp at hf
        obtain ⟨e, he⟩ := ih ⟨k, hkn, hf⟩
        rw [hr] at he
        simp at he

/-- `Reserve` consults the faults for copies and moves only. -/
theorem Vector.Reserve_faults_value_init (E : Elem T) (f : Nat → Option Exn) (n : Nat)
    (v : Vector T) :
    Vector.Reserve E (faults_value_init f) n v = Vector.Reserve E Faults.none n v := rfl

/-- `Resize` past the capacity of a valid vector when only a
value-initialisation of an exposed slot throws: the exception leaves the call
after the larger block has replaced the old one; the length and the live slots
are as before. -/
theorem Vector.Resize_grow_throws (E : Elem T) (f : Nat → Option Exn) (n k : Nat)
    (v : Vector T) (hv : v.Valid) (hn : v.data_.capacity_ < n) (hk1 : v.size_ ≤ k)
    (hk2 : k < n) (hf : (f k).isSome = true) :
    ∃ e v1, Vector.Resize E (faults_value_init f) n v = (Outcome.threw e, v1) ∧
      v1.size_ = v.size_ ∧
      v1.data_.capacity_ = max (v.data_.capacity_ * 2) n ∧
      (∀ j, j < v.size_ → v1.data_.get j = v.data_.get j) := by
  obtain ⟨hle, hmax, hnn⟩ := hv
  unfold PTRDIFF_MAX at hmax
  unfold Vector.Resize
  have hF : (faults_value_init f).value_init = f := rfl
  simp only [Vector.begin, zero_add, RawMemory.Capacity, gt_iff_lt, hF]
  rw [if_neg (by omega), if_neg (by omega), if_pos hn, Vector.Reserve_faults_value_init]
  have hdbl : size_t (v.data_.capacity_ * 2) = v.data_.capacity_ * 2 :=
    size_t_of_lt _ (by omega)
  rw [hdbl]
  obtain ⟨w, heq, e2, e3, e4, e5, -⟩ :=
    Vector.Reserve_grow E (max (v.data_.capacity_ * 2) n) v
      (lt_of_lt_of_le (by omega : v.size_ < n) (le_max_right _ _))
  rw [heq]
  simp only
  obtain ⟨b1, -, b3⟩ := uninitialized_value_construct_n_below E f w.size_ (n - w.size_)
    w.data_ e4
  obtain ⟨e, he⟩ := uninitialized_value_construct_n_throws E f w.size_ (n - w.size_) w.data_
    ⟨k - w.size_, by rw [e2]; omega, by
      have : w.size_ + (k - w.size_) = k := by rw [e2]; omega
      rw [this]; exact hf⟩
  rcases hr : uninitialized_value_construct_n E f w.size_ (n - w.size_) w.data_ with ⟨r, d⟩
  rw [hr] at b1 b3 he
  simp only at b1 b3 he
  subst he
  refine ⟨e, _, rfl, e2, ?_, fun j hj => ?_⟩
  · show d.capacity_ = _
    rw [b1, e3]
  · show d.get j = _
    rw [b3 j (by rw [e2]; exact hj), e5 j hj]

end MoreMutators

/-! ## Allocation: byte counts and `std::bad_alloc` -/

section Allocation

variable {T : Type}

theorem RawMemory.set_requested_bytes (m : RawMemory T) (i : Nat) (x : Option T) :
    (m.set i x).requested_bytes = m.requested_bytes := by
  obtain ⟨b, c⟩ := m
  cases b <;> rfl

theorem RawMemory.ctor_requested_bytes (E : Elem T) (n : Nat) (h : n ≠ 0) :
    (RawMemory.ctor E n).requested_bytes = size_t (n * E.sizeof) := by
  unfold RawMemory.ctor RawMemory.Allocate RawMemory.requested_bytes
  simp [h]

/-- A byte count of at most `PTRDIFF_MAX` is passed to `operator new` as it is. -/
theorem size_t_of_le_PTRDIFF_MAX (b : Nat) (h : b ≤ PTRDIFF_MAX) : size_t b = b := by
  unfold PTRDIFF_MAX at h
  exact size_t_of_lt b (by omega)

theorem destroy_n_requested_bytes (m : RawMemory T) (first n : Nat) :
    (destroy_n m first n).requested_bytes = m.requested_bytes := by
  induction n with
  | zero => rfl
  | succ n ih => simp only [destroy_n, RawMemory.set_requested_bytes, ih]

theorem uninitialized_copy_n_requested_bytes (fault : Nat → Option Exn) (src : RawMemory T)
    (first count : Nat) (dst : RawMemory T) (result : Nat) :
    (uninitialized_copy_n fault src first count dst result).2.requested_bytes
      = dst.requested_bytes := by
  induction count with
  | zero => rfl
  | succ n ih =>
    simp only [uninitialized_copy_n]
    rcases hr : uninitialized_copy_n fault src first n dst result with ⟨r, d⟩
    rw [hr] at ih
    simp only at ih
    cases r with
    | some e => exact ih
    | none =>
      simp only
      cases fault (first + n) with
      | some e =>
        show (destroy_n d result n).requested_bytes = _
        rw [destroy_n_requested_bytes, ih]
      | none =>
        show (d.set (result + n) (src.get (first + n))).requested_bytes = _
        rw [RawMemory.set_requested_bytes, ih]

theorem uninitialized_move_n_requested_bytes (E : Elem T) (fault : Nat → Option Exn)
    (first count : Nat) (src dst : RawMemory T) (result : Nat) :
    (uninitialized_move_n E fault first count src dst result).2.2.requested_bytes
      = dst.requested_bytes := by
  induction count with
  | zero => rfl
  | succ n ih =>
    simp only [uninitialized_move_n]
    rcases hr : uninitialized_move_n E fault first n src dst result with ⟨r, s1, d⟩
    rw [hr] at ih
    simp only at ih
    cases r with
    | some e => exact ih
    | none =>
      simp only
      cases fault (first + n) with
      | some e =>
        show (destroy_n d result n).requested_bytes = _
        rw [destroy_n_requested_bytes, ih]
      | none =>
        show (d.set (result + n) (s1.get (first + n))).requested_bytes = _
        rw [RawMemory.set_requested_bytes, ih]

theorem uninitialized_value_construct_n_requested_bytes (E : Elem T)
    (fault : Nat → Option Exn) (first count : Nat) (m : RawMemory T) :
    (uninitialized_value_construct_n E fault first count m).2.requested_bytes
      = m.requested_bytes := by
  induction count with
  | zero => rfl
  | succ n ih =>
    simp only [uninitialized_value_construct_n]
    rcases hr : uninitialized_value_construct_n E fault first n m with ⟨r, d⟩
    rw [hr] at ih
    simp only at ih
    cases r with
    | some e => exact ih
    | none =>
      simp only
      cases fault (first + n) with
      | some e =>
        show (destroy_n d first n).requested_bytes = _
        rw [destroy_n_requested_bytes, ih]
      | none =>
        show (d.set (first + n) (some E.value_init)).requested_bytes = _
        rw [RawMemory.set_requested_bytes, ih]

/-- `MoveOrCopy` constructs into the destination block and leaves its byte
count alone. -/
theorem MoveOrCopy_requested_bytes (E : Elem T) (F : Faults) (src dst : RawMemory T)
    (first count result : Nat) :
    (MoveOrCopy E F src first count dst result).2.2.requested_bytes = dst.requested_bytes := by
  unfold MoveOrCopy
  split_ifs
  · exact uninitialized_move_n_requested_bytes E _ first count src dst result
  · exact uninitialized_copy_n_requested_bytes F.copy src first count dst result

/-- The block that a reallocating `Reserve` installs was requested with
`new_capacity * sizeof(T)` bytes, reduced to `size_t`. -/
theorem Vector.Reserve_grow_requested_bytes (E : Elem T) (n : Nat) (v : Vector T)
    (h : v.size_ < n) :
    (Vector.Reserve E Faults.none n v).2.data_.requested_bytes = size_t (n * E.sizeof) := by
  unfold Vector.Reserve
  simp only [Vector.begin, ge_iff_le, RawMemory.ctor_throws_none]
  rw [if_neg (by omega)]
  have hm := MoveOrCopy_ok E v.data_ 0 v.size_ _ 0 (RawMemory.ctor_isSome E n (by omega))
  have hb := MoveOrCopy_requested_bytes E Faults.none v.data_ (RawMemory.ctor E n) 0 v.size_ 0
  split
  · rename_i e src d heq
    rw [heq] at hm
    exact absurd hm.1 (by simp)
  · rename_i src d heq
    rw [heq] at hb
    simp only at hb
    show d.requested_bytes = _
    rw [hb, RawMemory.ctor_requested_bytes E n (by omega)]

/-- When `operator new` throws, a reallocating `Reserve` throws the same
exception and leaves the vector as it was. -/
theorem Vector.Reserve_alloc_throws (E : Elem T) (F : Faults) (e : Exn) (n : Nat)
    (v : Vector T) (ha : F.alloc = some e) (h : v.size_ < n) :
    Vector.Reserve E F n v = (Outcome.threw e, v) := by
  unfold Vector.Reserve RawMemory.ctor_throws
  simp only [ge_iff_le]
  rw [if_neg (by omega), if_pos (by omega), ha]

/-- The block that `Resize` past the capacity installs was requested with
`max (capacity * 2) new_size * sizeof(T)` bytes, reduced to `size_t`. -/
theorem Vector.Resize_grow_requested_bytes (E : Elem T) (n : Nat) (v : Vector T)
    (hv : v.Valid) (h : v.data_.capacity_ < n) :
    (Vector.Resize E Faults.none n v).2.data_.requested_bytes
      = size_t (max (v.data_.capacity_ * 2) n * E.sizeof) := by
  obtain ⟨hle, hmax, hnn⟩ := hv
  unfold PTRDIFF_MAX at hmax
  have hlt : v.size_ < max (v.data_.capacity_ * 2) n :=
    lt_of_lt_of_le (by omega : v.size_ < n) (le_max_right _ _)
  have hb := Vector.Reserve_grow_requested_bytes E (max (v.data_.capacity_ * 2) n) v hlt
  obtain ⟨w, heq, -⟩ := Vector.Reserve_grow E (max (v.data_.capacity_ * 2) n) v hlt
  rw [heq] at hb
  simp only at hb
  unfold Vector.Resize
  simp only [Vector.begin, zero_add, RawMemory.Capacity, gt_iff_lt]
  rw [if_neg (by omega), if_neg (by omega), if_pos h,
    size_t_of_lt (v.data_.capacity_ * 2) (by omega), heq]
  simp only
  have hu := uninitialized_value_construct_n_requested_bytes E Faults.none.value_init
    w.size_ (n - w.size_) w.data_
  split
  · rename_i e d hq
    rw [hq] at hu
    show d.requested_bytes = _
    rw [hu, hb]
  · rename_i d hq
    rw [hq] at hu
    show d.requested_bytes = _
    rw [hu, hb]

/-- When `operator new` throws, `Resize` past the capacity of a valid vector
throws the same exception and leaves the vector as it was. -/
theorem Vector.Resize_alloc_throws (E : Elem T) (F : Faults) (e : Exn) (n : Nat)
    (v : Vector T) (hle : v.size_ ≤ v.data_.capacity_) (ha : F.alloc = some e)
    (h : v.data_.capacity_ < n) :
    Vector.Resize E F n v = (Outcome.threw e, v) := by
  have hlt : v.size_ < max (size_t (v.data_.capacity_ * 2)) n :=
    lt_of_lt_of_le (by omega : v.size_ < n) (le_max_right _ _)
  unfold Vector.Resize
  simp only [RawMemory.Capacity, gt_iff_lt]
  rw [if_neg (by omega), if_neg (by omega), if_pos h,
    Vector.Reserve_alloc_throws E F e _ v ha hlt]

/-- The block of a vector built by `Vector(size_t size)` is the one
`RawMemory(size)` obtained. -/
theorem Vector.ctor_size_requested_bytes (E : Elem T) (n : Nat) (w : Vector T)
    (h : Vector.ctor_size E Faults.none n = Except.ok w) :
    w.data_.requested_bytes = (RawMemory.ctor E n).requested_bytes := by
  unfold Vector.ctor_size at h
  simp only [RawMemory.ctor_throws_none] at h
  have hu := uninitialized_value_construct_n_requested_bytes E Faults.none.value_init 0 n
    (RawMemory.ctor E n)
  split at h
  · exact absurd h (by simp)
  · rename_i d hq
    rw [hq] at hu
    simp only at hu
    have hw : w = { data_ := d, size_ := n } := by
      injection h with h1
      exact h1.symm
    rw [hw]
    exact hu

/-- When `operator new` throws, `Vector(size_t size)` with a size other than 0
throws the same exception. -/
theorem Vector.ctor_size_alloc_throws (E : Elem T) (F : Faults) (e : Exn) (n : Nat)
    (ha : F.alloc = some e) (h : n ≠ 0) :
    Vector.ctor_size E F n = Except.error e := by
  unfold Vector.ctor_size RawMemory.ctor_throws
  rw [if_pos h, ha]

/-- Pushing into spare capacity keeps the block, and with it the byte count
it was requested with. -/
theorem PushBack_all_spare_requested_bytes (E : Elem T) (ys : List T) (v : Vector T)
    (hroom : v.size_ + ys.length ≤ v.data_.capacity_) (hc : v.data_.capacity_ < 2 ^ 64) :
    (PushBack_all E Faults.none ys v).2.data_.requested_bytes = v.data_.requested_bytes := by
  induction ys generalizing v with
  | nil => rfl
  | cons y ys ih =>
    rw [List.length_cons] at hroom
    have hpush := Vector.PushBack_spare E y v (by omega) hc
    simp only [PushBack_all, hpush]
    rw [ih (Vector.mk (v.data_.set v.size_ (some y)) (v.size_ + 1))
      (by simp only [RawMemory.set_capacity]; omega)
      (by simp only [RawMemory.set_capacity]; exact hc)]
    exact RawMemory.set_requested_bytes _ _ _

end Allocation

/-! ## Claims -/

section Claims

variable {T : Type}

/-- C1: for a valid array with contents `xs` and every offset `i` with
`i ≤ length`, `Emplace` and `Insert` at `i` of the value `x`, when no
construction throws, return the position `i` and leave the contents
`xs.take i ++ [x] ++ xs.drop i` and the length increased by exactly one; no
assumption is made on whether the length is below or equal to the capacity, so
both the in-capacity and the reallocating path are covered; for `i = length`
the array after the call is the one `PushBack(x)` leaves. -/
theorem C1_Emplace_inserts_at_position (E : Elem T) (v : Vector T) (xs : List T) (i : Nat)
    (x : T) (hv : v.Valid) (hxs : v.elems = xs.map some) (hi : i ≤ v.Size) :
    ∃ v1, Vector.Emplace E Faults.none i x v = (Outcome.ok i, v1) ∧
      Vector.Insert E Faults.none i x v = (Outcome.ok i, v1) ∧
      v1.elems = (xs.take i ++ [x] ++ xs.drop i).map some ∧
      v1.Size = v.Size + 1 ∧
      (i = v.Size → Vector.PushBack E Faults.none x v = (Outcome.ok (), v1)) := by
  obtain ⟨v1, heq, e2, -, -, e5, e6, e7⟩ := Vector.Emplace_ok E i x v hv hi
  refine ⟨v1, heq, heq, Vector.elems_insert v v1 xs i x hxs hi e2 e5 e6 e7, e2, fun hend => ?_⟩
  obtain ⟨w, hw, -⟩ := Vector.EmplaceBack_ok E x v hv
  have hst := Vector.Emplace_end_state E Faults.none x v
  have hi2 : i = v.size_ := hend
  rw [← hi2, heq, hw] at hst
  simp only at hst
  rw [hst]
  exact Vector.PushBack_of_EmplaceBack E Faults.none x v w _ hw

/-- C1, instance: inserting 9 at offset 1 of `[1, 2, 3]` held with spare
capacity, and at offset 2 of `[1, 2, 3, 4]` held in a full block. -/
theorem C1_witness :
    (sample_spare.Valid ∧ sample_spare.elems = [1, 2, 3].map some ∧ 1 ≤ sample_spare.Size ∧
      ∃ v1, Vector.Emplace elem_nothrow Faults.none 1 9 sample_spare = (Outcome.ok 1, v1) ∧
        Vector.Insert elem_nothrow Faults.none 1 9 sample_spare = (Outcome.ok 1, v1) ∧
        v1.elems = ([1, 2, 3].take 1 ++ [9] ++ [1, 2, 3].drop 1).map some ∧
        v1.Size = sample_spare.Size + 1 ∧
        (1 = sample_spare.Size →
          Vector.PushBack elem_nothrow Faults.none 9 sample_spare = (Outcome.ok (), v1))) ∧
    (sample_full.Valid ∧ sample_full.elems = [1, 2, 3, 4].map some ∧ 2 ≤ sample_full.Size ∧
      ∃ v1, Vector.Emplace elem_copy Faults.none 2 9 sample_full = (Outcome.ok 2, v1) ∧
        Vector.Insert elem_copy Faults.none 2 9 sample_full = (Outcome.ok 2, v1) ∧
        v1.elems = ([1, 2, 3, 4].take 2 ++ [9] ++ [1, 2, 3, 4].drop 2).map some ∧
        v1.Size = sample_full.Size + 1 ∧
        (2 = sample_full.Size →
          Vector.PushBack elem_copy Faults.none 9 sample_full = (Outcome.ok (), v1))) :=
  ⟨⟨by unfold Vector.Valid; decide, by decide, by decide,
      C1_Emplace_inserts_at_position elem_nothrow sample_spare [1, 2, 3] 1 9
        (by unfold Vector.Valid; decide) (by decide) (by decide)⟩,
   ⟨by unfold Vector.Valid; decide, by decide, by decide,
      C1_Emplace_inserts_at_position elem_copy sample_full [1, 2, 3, 4] 2 9
        (by unfold Vector.Valid; decide) (by decide) (by decide)⟩⟩

/-- C2: for a valid array with contents `xs` and every offset `i` with
`i < length`, `Erase` at `i` returns the position `i` and leaves the contents
`xs` with exactly the entry at index `i` removed (later entries one slot
lower, order kept), the length decreased by one and the capacity unchanged. -/
theorem C2_Erase_removes_element (E : Elem T) (v : Vector T) (xs : List T) (i : Nat)
    (hv : v.Valid) (hxs : v.elems = xs.map some) (hi : i < v.Size) :
    ∃ v1, Vector.Erase E i v = (Outcome.ok i, v1) ∧
      v1.elems = (xs.eraseIdx i).map some ∧
      v1.elems = (xs.take i ++ xs.drop (i + 1)).map some ∧
      v1.Size = v.Size - 1 ∧
      v1.Capacity = v.Capacity := by
  obtain ⟨v1, heq, e2, e3, -, e5, e6, -⟩ := Vector.Erase_ok E i v hv hi
  have h1 := Vector.elems_erase v v1 xs i hxs hi e2 e5 e6
  refine ⟨v1, heq, h1, ?_, e2, e3⟩
  rw [h1, List.eraseIdx_eq_take_drop_succ]

/-- C2, instance: erasing offset 1 of `[1, 2, 3]`. -/
theorem C2_witness :
    sample_spare.Valid ∧ sample_spare.elems = [1, 2, 3].map some ∧ 1 < sample_spare.Size ∧
      ∃ v1, Vector.Erase elem_nothrow 1 sample_spare = (Outcome.ok 1, v1) ∧
        v1.elems = ([1, 2, 3].eraseIdx 1).map some ∧
        v1.elems = ([1, 2, 3].take 1 ++ [1, 2, 3].drop (1 + 1)).map some ∧
        v1.Size = sample_spare.Size - 1 ∧
        v1.Capacity = sample_spare.Capacity :=
  ⟨by unfold Vector.Valid; decide, by decide, by decide,
    C2_Erase_removes_element elem_nothrow sample_spare [1, 2, 3] 1
      (by unfold Vector.Valid; decide) (by decide) (by decide)⟩

/-- C3, the code at a failing input: on the empty vector with capacity 4 that
`Reserve(4)` leaves, `Reserve(2)` asks for no more than the capacity and yet
replaces the block by one of capacity 2. -/
theorem C3_Reserve_within_capacity_shrinks :
    (Vector.Reserve elem_nothrow Faults.none 4 Vector.ctor_default).2.Capacity = 4 ∧
    (Vector.Reserve elem_nothrow Faults.none 4 Vector.ctor_default).2.Size = 0 ∧
    (Vector.Reserve elem_nothrow Faults.none 2
      (Vector.Reserve elem_nothrow Faults.none 4 Vector.ctor_default).2).1 = Outcome.ok () ∧
    (Vector.Reserve elem_nothrow Faults.none 2
      (Vector.Reserve elem_nothrow Faults.none 4 Vector.ctor_default).2).2.Capacity = 2 := by
  decide

/-- C4: for every array whose length is within its capacity and every
`new_capacity` whose byte count `new_capacity * sizeof(T)` is at most
`PTRDIFF_MAX`, `Reserve(new_capacity)`, when the allocation is met and no
construction throws, returns and leaves the length and the element sequence
unchanged and a capacity of at least `new_capacity`; when `new_capacity`
exceeds the old capacity the new capacity is exactly `new_capacity`.  A block
that the call installs was requested with exactly `new_capacity * sizeof(T)`
bytes, room for as many elements as the capacity says.  When `operator new`
throws instead, the call throws the same exception and leaves the array as it
was. -/
theorem C4_Reserve_keeps_contents (E : Elem T) (v : Vector T) (new_capacity : Nat)
    (hle : v.Size ≤ v.Capacity) (hs : 0 < E.sizeof)
    (hreq : new_capacity * E.sizeof ≤ PTRDIFF_MAX) :
    (∃ v1, Vector.Reserve E Faults.none new_capacity v = (Outcome.ok (), v1) ∧
      v1.Size = v.Size ∧
      v1.elems = v.elems ∧
      new_capacity ≤ v1.Capacity ∧
      (v.Capacity < new_capacity → v1.Capacity = new_capacity) ∧
      (v.Size < new_capacity →
        v1.data_.requested_bytes = new_capacity * E.sizeof ∧
        v1.data_.requested_bytes / E.sizeof = v1.Capacity)) ∧
    (∀ F e, F.alloc = some e → v.Size < new_capacity →
      Vector.Reserve E F new_capacity v = (Outcome.threw e, v)) := by
  have hle1 : v.size_ ≤ v.data_.capacity_ := hle
  refine ⟨?_, fun F e ha hlt => Vector.Reserve_alloc_throws E F e new_capacity v ha hlt⟩
  by_cases h : new_capacity ≤ v.size_
  · refine ⟨v, Vector.Reserve_small E _ _ v h, rfl, rfl, ?_, fun hlt => ?_, fun hlt => ?_⟩
    · show new_capacity ≤ v.data_.capacity_
      omega
    · have hlt1 : v.data_.capacity_ < new_capacity := hlt
      omega
    · have hlt1 : v.size_ < new_capacity := hlt
      omega
  · obtain ⟨v1, heq, e2, e3, -, e5, -⟩ := Vector.Reserve_grow E new_capacity v (by omega)
    have hb := Vector.Reserve_grow_requested_bytes E new_capacity v (by omega)
    rw [heq, size_t_of_le_PTRDIFF_MAX _ hreq] at hb
    simp only at hb
    refine ⟨v1, heq, e2, Vector.elems_congr v v1 e2 e5, ?_, fun _ => e3, fun _ => ⟨hb, ?_⟩⟩
    · show new_capacity ≤ v1.data_.capacity_
      omega
    · show v1.data_.requested_bytes / E.sizeof = v1.data_.capacity_
      rw [hb, e3, Nat.mul_div_cancel _ hs]

/-- C4, instance: `Reserve(10)` on `[1, 2, 3]` with capacity 4, for objects of
8 bytes. -/
theorem C4_witness :
    sample_spare.Size ≤ sample_spare.Capacity ∧ 0 < elem_copy.sizeof ∧
    10 * elem_copy.sizeof ≤ PTRDIFF_MAX ∧
    (∃ v1, Vector.Reserve elem_copy Faults.none 10 sample_spare = (Outcome.ok (), v1) ∧
      v1.Size = sample_spare.Size ∧
      v1.elems = sample_spare.elems ∧
      10 ≤ v1.Capacity ∧
      (sample_spare.Capacity < 10 → v1.Capacity = 10) ∧
      (sample_spare.Size < 10 →
        v1.data_.requested_bytes = 10 * elem_copy.sizeof ∧
        v1.data_.requested_bytes / elem_copy.sizeof = v1.Capacity)) ∧
    (∀ F e, F.alloc = some e → sample_spare.Size < 10 →
      Vector.Reserve elem_copy F 10 sample_spare = (Outcome.threw e, sample_spare)) :=
  ⟨by decide, by decide, by decide,
    C4_Reserve_keeps_contents elem_copy sample_spare 10 (by decide) (by decide) (by decide)⟩

/-- C5: for a valid array with contents `xs`, length `len` and capacity `cap`,
and every `n` such that, when `n > cap`, the byte count
`max (cap * 2) n * sizeof(T)` of the block to reserve is at most `PTRDIFF_MAX`:
`Resize(n)`, when the allocation is met and no construction throws, returns
and leaves the first `min n len` entries of `xs` followed by `n - len`
value-initialised values (none when `n ≤ len`), the length `n`, and the
capacity `cap` when `n ≤ cap` but `max (cap * 2) n` when `n > cap`; a call with
`n ≤ len` leaves the capacity unchanged.  The block installed when `n > cap`
was requested with exactly `capacity * sizeof(T)` bytes for the new capacity.
When `operator new` throws instead, the call throws the same exception and
leaves the array as it was. -/
theorem C5_Resize_contents_and_capacity (E : Elem T) (v : Vector T) (xs : List T) (n : Nat)
    (hv : v.Valid) (hxs : v.elems = xs.map some) (hs : 0 < E.sizeof)
    (hreq : v.Capacity < n → max (v.Capacity * 2) n * E.sizeof ≤ PTRDIFF_MAX) :
    (∃ v1, Vector.Resize E Faults.none n v = (Outcome.ok (), v1) ∧
      v1.elems =
        (xs.take (min n xs.length) ++ List.replicate (n - xs.length) E.value_init).map some ∧
      v1.Size = n ∧
      v1.Capacity = (if n ≤ v.Capacity then v.Capacity else max (v.Capacity * 2) n) ∧
      (n ≤ v.Size → v1.Capacity = v.Capacity) ∧
      (v.Capacity < n →
        v1.data_.requested_bytes = v1.Capacity * E.sizeof ∧
        v1.data_.requested_bytes / E.sizeof = v1.Capacity)) ∧
    (∀ F e, F.alloc = some e → v.Capacity < n →
      Vector.Resize E F n v = (Outcome.threw e, v)) := by
  have h2 : v.size_ ≤ v.data_.capacity_ := hv.1
  refine ⟨?_, fun F e ha hlt => Vector.Resize_alloc_throws E F e n v h2 ha hlt⟩
  obtain ⟨v1, heq, e2, e3, e4, e5⟩ := Vector.Resize_ok E n v hv
  refine ⟨v1, heq, Vector.elems_resize v v1 xs n E.value_init hxs e2 e4 e5, e2, e3,
    fun hn => ?_, fun hlt => ?_⟩
  · have h1 : n ≤ v.size_ := hn
    show v1.data_.capacity_ = v.data_.capacity_
    rw [e3, if_pos (by omega)]
  · have hlt1 : v.data_.capacity_ < n := hlt
    have hb := Vector.Resize_grow_requested_bytes E n v hv hlt1
    have hreq1 : max (v.data_.capacity_ * 2) n * E.sizeof ≤ PTRDIFF_MAX := hreq hlt
    rw [heq, size_t_of_le_PTRDIFF_MAX _ hreq1] at hb
    simp only at hb
    have hc : v1.data_.capacity_ = max (v.data_.capacity_ * 2) n := by
      rw [e3, if_neg (by omega)]
    refine ⟨?_, ?_⟩
    · show v1.data_.requested_bytes = v1.data_.capacity_ * E.sizeof
      rw [hb, hc]
    · show v1.data_.requested_bytes / E.sizeof = v1.data_.capacity_
      rw [hb, hc, Nat.mul_div_cancel _ hs]

/-- C5, instance: `Resize(9)` and `Resize(2)` on `[1, 2, 3]` with capacity 4,
for objects of 8 bytes. -/
theorem C5_witness :
    sample_spare.Valid ∧ sample_spare.elems = [1, 2, 3].map some ∧ 0 < elem_copy.sizeof ∧
    (sample_spare.Capacity < 9 →
      max (sample_spare.Capacity * 2) 9 * elem_copy.sizeof ≤ PTRDIFF_MAX) ∧
    ((∃ v1, Vector.Resize elem_copy Faults.none 9 sample_spare = (Outcome.ok (), v1) ∧
      v1.elems = (([1, 2, 3] : List Nat).take (min 9 ([1, 2, 3] : List Nat).length) ++
        List.replicate (9 - ([1, 2, 3] : List Nat).length) elem_copy.value_init).map some ∧
      v1.Size = 9 ∧
      v1.Capacity = (if 9 ≤ sample_spare.Capacity then sample_spare.Capacity
        else max (sample_spare.Capacity * 2) 9) ∧
      (9 ≤ sample_spare.Size → v1.Capacity = sample_spare.Capacity) ∧
      (sample_spare.Capacity < 9 →
        v1.data_.requested_bytes = v1.Capacity * elem_copy.sizeof ∧
        v1.data_.requested_bytes / elem_copy.sizeof = v1.Capacity)) ∧
    (∀ F e, F.alloc = some e → sample_spare.Capacity < 9 →
      Vector.Resize elem_copy F 9 sample_spare = (Outcome.threw e, sample_spare))) ∧
    ((∃ v1, Vector.Resize elem_copy Faults.none 2 sample_spare = (Outcome.ok (), v1) ∧
      v1.elems = (([1, 2, 3] : List Nat).take (min 2 ([1, 2, 3] : List Nat).length) ++
        List.replicate (2 - ([1, 2, 3] : List Nat).length) elem_copy.value_init).map some ∧
      v1.Size = 2 ∧
      v1.Capacity = (if 2 ≤ sample_spare.Capacity then sample_spare.Capacity
        else max (sample_spare.Capacity * 2) 2) ∧
      (2 ≤ sample_spare.Size → v1.Capacity = sample_spare.Capacity) ∧
      (sample_spare.Capacity < 2 →
        v1.data_.requested_bytes = v1.Capacity * elem_copy.sizeof ∧
        v1.data_.requested_bytes / elem_copy.sizeof = v1.Capacity)) ∧
    (∀ F e, F.alloc = some e → sample_spare.Capacity < 2 →
      Vector.Resize elem_copy F 2 sample_spare = (Outcome.threw e, sample_spare))) :=
  ⟨by unfold Vector.Valid; decide, by decide, by decide, fun _ => by decide,
    C5_Resize_contents_and_capacity elem_copy sample_spare [1, 2, 3] 9
      (by unfold Vector.Valid; decide) (by decide) (by decide) (fun _ => by decide),
    C5_Resize_contents_and_capacity elem_copy sample_spare [1, 2, 3] 2
      (by unfold Vector.Valid; decide) (by decide) (by decide)
      (fun h => absurd h (by decide))⟩

/-- C6, refuted as stated: move-assigning `[1, 2, 3]` (capacity 4) to a vector
that holds `[1, 2, 3, 4]` hands the contents over, and the source is left with
length 4 and capacity 4, not with length 0 and capacity 0. -/
theorem C6_move_assign_leaves_source_nonempty :
    (Vector.assign_move sample_full sample_spare).1.elems = sample_spare.elems ∧
    (Vector.assign_move sample_full sample_spare).2.Size = 4 ∧
    (Vector.assign_move sample_full sample_spare).2.Capacity = 4 ∧
    ¬ ((Vector.assign_move sample_full sample_spare).2.Size = 0 ∧
       (Vector.assign_move sample_full sample_spare).2.Capacity = 0) := by
  decide

/-- C6, amended: after the move assignment `b = move(a)` of distinct arrays,
`b` holds the former contents, length and capacity of `a`, and `a` holds the
former contents, length and capacity of `b`; so `a.size() == 0` and
`a.capacity() == 0` hold exactly when `b` had length 0 and capacity 0. -/
theorem C6_move_assign_exchanges (a b : Vector T) :
    (Vector.assign_move b a).1.elems = a.elems ∧
    (Vector.assign_move b a).1.Size = a.Size ∧
    (Vector.assign_move b a).1.Capacity = a.Capacity ∧
    (Vector.assign_move b a).2.elems = b.elems ∧
    (Vector.assign_move b a).2.Size = b.Size ∧
    (Vector.assign_move b a).2.Capacity = b.Capacity ∧
    (((Vector.assign_move b a).2.Size = 0 ∧ (Vector.assign_move b a).2.Capacity = 0) ↔
      (b.Size = 0 ∧ b.Capacity = 0)) :=
  ⟨rfl, rfl, rfl, rfl, rfl, rfl, Iff.rfl⟩

/-- C8, the code at a failing input: on the default-constructed vector the
position `begin()` equals `end()` and passes the `assert` of `Erase`; the call
returns and leaves `size_` at `2 ^ 64 - 1` with capacity 0, a reachable state
whose length exceeds its capacity. -/
theorem C8_Erase_at_end_breaks_invariant :
    (Vector.Erase elem_nothrow 0 Vector.ctor_default).1 = Outcome.ok 0 ∧
    (Vector.Erase elem_nothrow 0 Vector.ctor_default).2.Size = 2 ^ 64 - 1 ∧
    (Vector.Erase elem_nothrow 0 Vector.ctor_default).2.Capacity = 0 ∧
    ∃ v : Vector Nat, Reachable elem_nothrow v ∧ ¬ (v.Size ≤ v.Capacity) :=
  ⟨by decide, by decide, by decide,
    (Vector.Erase elem_nothrow 0 Vector.ctor_default).2,
    Reachable.Erase 0 Vector.ctor_default Reachable.ctor_default (by decide), by decide⟩

/-- C9, refuted as stated: for a type that is neither nothrow-move-constructible
nor copy-constructible `MoveOrCopy` selects move construction; when the move of
the second of two elements throws, the exception leaves `MoveOrCopy` and the
first source element has been moved from. -/
theorem C9_throwing_move_is_selected :
    elem_move_only.is_nothrow_move_constructible = false ∧
    MoveOrCopy_moves elem_move_only = true ∧
    (MoveOrCopy elem_move_only (faults_move_at 1) sample_full.data_ 0 2
      (RawMemory.ctor elem_move_only 8) 0).1 = some Exn.std_exception ∧
    sample_full.data_.get 0 = some 1 ∧
    (MoveOrCopy elem_move_only (faults_move_at 1) sample_full.data_ 0 2
      (RawMemory.ctor elem_move_only 8) 0).2.1.get 0 = some 0 := by
  decide

/-- C9, amended: for every combination of the two traits `MoveOrCopy` selects
move construction exactly when the type is nothrow-move-constructible or not
copy-constructible, and copy construction otherwise; so for a copy-constructible
type the elements are moved only if the move constructor cannot throw, and they
are copied, the source block untouched, in every other case. -/
theorem C9_MoveOrCopy_selection (E : Elem T) (F : Faults) (src dst : RawMemory T)
    (first count result : Nat) :
    (MoveOrCopy_moves E = true ↔
      (E.is_nothrow_move_constructible = true ∨ E.is_copy_constructible = false)) ∧
    (MoveOrCopy_moves E = true →
      MoveOrCopy E F src first count dst result
        = uninitialized_move_n E (move_fault E F) first count src dst result) ∧
    (MoveOrCopy_moves E = false →
      MoveOrCopy E F src first count dst result
        = ((uninitialized_copy_n F.copy src first count dst result).1, src,
           (uninitialized_copy_n F.copy src first count dst result).2)) ∧
    (E.is_copy_constructible = true → MoveOrCopy_moves E = true →
      E.is_nothrow_move_constructible = true ∧ ∀ k, move_fault E F k = none) := by
  refine ⟨?_, fun h => ?_, fun h => ?_, fun hc hm => ?_⟩
  · unfold MoveOrCopy_moves
    cases E.is_nothrow_move_constructible <;> cases E.is_copy_constructible <;> simp
  · exact MoveOrCopy_move E F src dst first count result h
  · exact MoveOrCopy_copy E F src dst first count result h
  · unfold MoveOrCopy_moves at hm
    have hn : E.is_nothrow_move_constructible = true := by
      rw [hc] at hm
      simpa using hm
    refine ⟨hn, fun k => ?_⟩
    unfold move_fault
    rw [if_pos hn]

/-- C7: for every valid array `v` and every array `rhs`, the copy assignment
`v = rhs`, when no construction throws, returns and leaves contents equal to
the contents of `rhs` and the length of `rhs`; the capacity is unchanged when
`rhs.length ≤ capacity` and is exactly `rhs.length` when
`rhs.length > capacity`.  The operand `rhs` is passed by reference to const and
is no part of what the call changes. -/
theorem C7_copy_assign (E : Elem T) (v rhs : Vector T) (hv : v.Valid) :
    ∃ v1, Vector.assign_copy E Faults.none v rhs = (Outcome.ok (), v1) ∧
      v1.elems = rhs.elems ∧
      v1.Size = rhs.Size ∧
      (rhs.Size ≤ v.Capacity → v1.Capacity = v.Capacity) ∧
      (rhs.Size > v.Capacity → v1.Capacity = rhs.Size) := by
  obtain ⟨v1, heq, e2, e3, e4⟩ := Vector.assign_copy_ok E v rhs hv
  refine ⟨v1, heq, Vector.elems_congr rhs v1 e2 e4, e2, fun h => ?_, fun h => ?_⟩
  · have h1 : rhs.size_ ≤ v.data_.capacity_ := h
    show v1.data_.capacity_ = v.data_.capacity_
    rw [e3, if_pos h1]
  · have h1 : v.data_.capacity_ < rhs.size_ := h
    show v1.data_.capacity_ = rhs.size_
    rw [e3, if_neg (by omega)]

/-- C7, instance: assigning `[1, 2, 3, 4]` to the vector `[1, 2, 3]` of
capacity 4, and assigning `[1, 2, 3]` to the default-constructed vector. -/
theorem C7_witness :
    (sample_spare.Valid ∧
      ∃ v1, Vector.assign_copy elem_copy Faults.none sample_spare sample_full
          = (Outcome.ok (), v1) ∧
        v1.elems = sample_full.elems ∧
        v1.Size = sample_full.Size ∧
        (sample_full.Size ≤ sample_spare.Capacity → v1.Capacity = sample_spare.Capacity) ∧
        (sample_full.Size > sample_spare.Capacity → v1.Capacity = sample_full.Size)) ∧
    ((Vector.ctor_default : Vector Nat).Valid ∧
      ∃ v1, Vector.assign_copy elem_copy Faults.none Vector.ctor_default sample_spare
          = (Outcome.ok (), v1) ∧
        v1.elems = sample_spare.elems ∧
        v1.Size = sample_spare.Size ∧
        (sample_spare.Size ≤ (Vector.ctor_default : Vector Nat).Capacity →
          v1.Capacity = (Vector.ctor_default : Vector Nat).Capacity) ∧
        (sample_spare.Size > (Vector.ctor_default : Vector Nat).Capacity →
          v1.Capacity = sample_spare.Size)) :=
  ⟨⟨by unfold Vector.Valid; decide,
      C7_copy_assign elem_copy sample_spare sample_full (by unfold Vector.Valid; decide)⟩,
   ⟨by unfold Vector.Valid; decide,
      C7_copy_assign elem_copy Vector.ctor_default sample_spare
        (by unfold Vector.Valid; decide)⟩⟩

/-- C10: for a copy-constructible element type whose move constructor may throw
(so that `MoveOrCopy` copies), and for every array: if the construction of the
new element throws or the copy of the element at some offset `k` below the
length throws, then a reallocating `Reserve` (length below `new_capacity`), a
reallocating `EmplaceBack` and `PushBack` (capacity equal to length) and a
reallocating `Emplace` and `Insert` (capacity equal to length, any position up
to `end()`) throw and leave the array exactly as it was before the call, hence
with the same length, capacity and contents. -/
theorem C10_strong_guarantee_when_copying (E : Elem T) (F : Faults) (v : Vector T) (x : T)
    (hc : E.is_copy_constructible = true) (hn : E.is_nothrow_move_constructible = false)
    (hf : F.construct.isSome = true ∨ ∃ k, k < v.Size ∧ (F.copy k).isSome = true) :
    (∀ new_capacity, v.Size < new_capacity →
      (∃ k, k < v.Size ∧ (F.copy k).isSome = true) →
      ∃ e, Vector.Reserve E F new_capacity v = (Outcome.threw e, v)) ∧
    (v.Capacity = v.Size →
      (∃ e, Vector.EmplaceBack E F x v = (Outcome.threw e, v)) ∧
      (∃ e, Vector.PushBack E F x v = (Outcome.threw e, v)) ∧
      ∀ pos, pos ≤ v.Size →
        (∃ e, Vector.Emplace E F pos x v = (Outcome.threw e, v)) ∧
        (∃ e, Vector.Insert E F pos x v = (Outcome.threw e, v))) := by
  have hm := MoveOrCopy_moves_false E hc hn
  refine ⟨fun n hlt hk => Vector.Reserve_copy_throws E F n v hm hlt hk, fun hfull => ?_⟩
  have hfull1 : v.data_.capacity_ = v.size_ := hfull
  obtain ⟨e, he⟩ := Vector.EmplaceBack_copy_throws E F x v hm hfull1 hf
  refine ⟨⟨e, he⟩, ⟨e, ?_⟩, fun pos hpos => ?_⟩
  · unfold Vector.PushBack
    rw [he]
  · have h := Vector.Emplace_copy_throws E F pos x v hm hpos hfull1 hf
    exact ⟨h, h⟩

/-- C10, instance: with the copy of the element at offset 2 throwing, on the
full vector `[1, 2, 3, 4]`. -/
theorem C10_witness :
    elem_copy.is_copy_constructible = true ∧
    elem_copy.is_nothrow_move_constructible = false ∧
    ((faults_copy_at 2).construct.isSome = true ∨
      ∃ k, k < sample_full.Size ∧ ((faults_copy_at 2).copy k).isSome = true) ∧
    ((∀ new_capacity, sample_full.Size < new_capacity →
      (∃ k, k < sample_full.Size ∧ ((faults_copy_at 2).copy k).isSome = true) →
      ∃ e, Vector.Reserve elem_copy (faults_copy_at 2) new_capacity sample_full
        = (Outcome.threw e, sample_full)) ∧
    (sample_full.Capacity = sample_full.Size →
      (∃ e, Vector.EmplaceBack elem_copy (faults_copy_at 2) 9 sample_full
        = (Outcome.threw e, sample_full)) ∧
      (∃ e, Vector.PushBack elem_copy (faults_copy_at 2) 9 sample_full
        = (Outcome.threw e, sample_full)) ∧
      ∀ pos, pos ≤ sample_full.Size →
        (∃ e, Vector.Emplace elem_copy (faults_copy_at 2) pos 9 sample_full
          = (Outcome.threw e, sample_full)) ∧
        (∃ e, Vector.Insert elem_copy (faults_copy_at 2) pos 9 sample_full
          = (Outcome.threw e, sample_full)))) :=
  ⟨rfl, rfl, Or.inr ⟨2, by decide, by decide⟩,
    C10_strong_guarantee_when_copying elem_copy (faults_copy_at 2) sample_full 9 rfl rfl
      (Or.inr ⟨2, by decide, by decide⟩)⟩

/-- C11, the code at a failing input: `Resize(9)` on `[1, 2, 3]` with capacity
4 grows past the capacity; when the value-initialisation of the slot at offset
6 throws, the exception leaves `Resize` with the length and the contents as
before but with the capacity at 9 instead of 4, the block reserved before the
constructions having already replaced the old one. -/
theorem C11_Resize_failure_changes_capacity :
    sample_spare.Capacity = 4 ∧
    (Vector.Resize elem_copy (faults_value_init_at 6) 9 sample_spare).1
      = Outcome.threw Exn.std_exception ∧
    (Vector.Resize elem_copy (faults_value_init_at 6) 9 sample_spare).2.Size
      = sample_spare.Size ∧
    (Vector.Resize elem_copy (faults_value_init_at 6) 9 sample_spare).2.elems
      = sample_spare.elems ∧
    (Vector.Resize elem_copy (faults_value_init_at 6) 9 sample_spare).2.Capacity = 9 ∧
    ¬ ((Vector.Resize elem_copy (faults_value_init_at 6) 9 sample_spare).2.Capacity
      = sample_spare.Capacity) := by
  decide

/-- C11, amended: for every valid array and every `new_size` above the
capacity, if the value-initialisation of one of the newly exposed trailing
slots throws during `Resize(new_size)` (copies and moves not throwing), the
exception leaves the call and the array afterwards has the same length and
contents as before the call and the capacity `max (capacity * 2) new_size`
that the reallocation gave it. -/
theorem C11_Resize_failure_keeps_contents (E : Elem T) (f : Nat → Option Exn) (v : Vector T)
    (new_size k : Nat) (hv : v.Valid) (hn : v.Capacity < new_size) (hk1 : v.Size ≤ k)
    (hk2 : k < new_size) (hf : (f k).isSome = true) :
    ∃ e v1, Vector.Resize E (faults_value_init f) new_size v = (Outcome.threw e, v1) ∧
      v1.Size = v.Size ∧
      v1.elems = v.elems ∧
      v1.Capacity = max (v.Capacity * 2) new_size := by
  obtain ⟨e, v1, h1, h2, h3, h4⟩ := Vector.Resize_grow_throws E f new_size k v hv hn hk1 hk2 hf
  exact ⟨e, v1, h1, h2, Vector.elems_congr v v1 h2 h4, h3⟩

/-- C11, instance: `Resize(9)` on `[1, 2, 3]` with capacity 4 when the
value-initialisation of the slot at offset 6 throws. -/
theorem C11_witness :
    sample_spare.Valid ∧ sample_spare.Capacity < 9 ∧ sample_spare.Size ≤ 6 ∧ 6 < 9 ∧
    ((fun j => if j = 6 then some Exn.std_exception else none) 6).isSome = true ∧
    ∃ e v1, Vector.Resize elem_copy
        (faults_value_init (fun j => if j = 6 then some Exn.std_exception else none)) 9
        sample_spare = (Outcome.threw e, v1) ∧
      v1.Size = sample_spare.Size ∧
      v1.elems = sample_spare.elems ∧
      v1.Capacity = max (sample_spare.Capacity * 2) 9 :=
  ⟨by unfold Vector.Valid; decide, by decide, by decide, by decide, rfl,
    C11_Resize_failure_keeps_contents elem_copy
      (fun j => if j = 6 then some Exn.std_exception else none) sample_spare 9 6
      (by unfold Vector.Valid; decide) (by decide) (by decide) (by decide) rfl⟩

/-- C12: for every valid array, when no construction throws, `EmplaceBack`,
`PushBack`, and `Emplace` and `Insert` at any position up to `end()` return,
and the capacity afterwards is the old capacity when the length was below it,
exactly 1 when length and capacity were both 0, and exactly twice the old
capacity when the length equalled a capacity that was not 0. -/
theorem C12_capacity_growth (E : Elem T) (v : Vector T) (x : T) (pos : Nat)
    (hv : v.Valid) (hpos : pos ≤ v.Size) :
    ∃ v1 v2, Vector.EmplaceBack E Faults.none x v = (Outcome.ok v.Size, v1) ∧
      Vector.PushBack E Faults.none x v = (Outcome.ok (), v1) ∧
      Vector.Emplace E Faults.none pos x v = (Outcome.ok pos, v2) ∧
      Vector.Insert E Faults.none pos x v = (Outcome.ok pos, v2) ∧
      (v.Size < v.Capacity → v1.Capacity = v.Capacity ∧ v2.Capacity = v.Capacity) ∧
      (v.Size = v.Capacity → v.Capacity = 0 → v1.Capacity = 1 ∧ v2.Capacity = 1) ∧
      (v.Size = v.Capacity → v.Capacity ≠ 0 →
        v1.Capacity = 2 * v.Capacity ∧ v2.Capacity = 2 * v.Capacity) := by
  obtain ⟨v1, h1, -, c1, -⟩ := Vector.EmplaceBack_ok E x v hv
  obtain ⟨v2, h2, -, c2, -⟩ := Vector.Emplace_ok E pos x v hv hpos
  refine ⟨v1, v2, h1, Vector.PushBack_of_EmplaceBack E Faults.none x v v1 _ h1, h2, h2,
    fun hlt => ?_, fun heq hz => ?_, fun heq hnz => ?_⟩
  · have hlt1 : v.size_ < v.data_.capacity_ := hlt
    have hne : ¬ v.data_.capacity_ = v.size_ := by omega
    rw [if_neg hne] at c1 c2
    exact ⟨c1, c2⟩
  · have heq1 : v.size_ = v.data_.capacity_ := heq
    have hz1 : v.data_.capacity_ = 0 := hz
    rw [if_pos heq1.symm, if_pos (by omega)] at c1 c2
    exact ⟨c1, c2⟩
  · have heq1 : v.size_ = v.data_.capacity_ := heq
    have hnz1 : v.data_.capacity_ ≠ 0 := hnz
    rw [if_pos heq1.symm, if_neg (by omega)] at c1 c2
    refine ⟨?_, ?_⟩
    · show v1.data_.capacity_ = 2 * v.data_.capacity_
      omega
    · show v2.data_.capacity_ = 2 * v.data_.capacity_
      omega

/-- C12, instance: pushing and inserting into `[1, 2, 3]` with capacity 4,
into the full `[1, 2, 3, 4]` and into the default-constructed vector. -/
theorem C12_witness :
    (sample_spare.Valid ∧ 1 ≤ sample_spare.Size ∧
      ∃ v1 v2, Vector.EmplaceBack elem_copy Faults.none 9 sample_spare
          = (Outcome.ok sample_spare.Size, v1) ∧
        Vector.PushBack elem_copy Faults.none 9 sample_spare = (Outcome.ok (), v1) ∧
        Vector.Emplace elem_copy Faults.none 1 9 sample_spare = (Outcome.ok 1, v2) ∧
        Vector.Insert elem_copy Faults.none 1 9 sample_spare = (Outcome.ok 1, v2) ∧
        (sample_spare.Size < sample_spare.Capacity →
          v1.Capacity = sample_spare.Capacity ∧ v2.Capacity = sample_spare.Capacity) ∧
        (sample_spare.Size = sample_spare.Capacity → sample_spare.Capacity = 0 →
          v1.Capacity = 1 ∧ v2.Capacity = 1) ∧
        (sample_spare.Size = sample_spare.Capacity → sample_spare.Capacity ≠ 0 →
          v1.Capacity = 2 * sample_spare.Capacity ∧ v2.Capacity = 2 * sample_spare.Capacity)) ∧
    (sample_full.Valid ∧ 1 ≤ sample_full.Size ∧
      ∃ v1 v2, Vector.EmplaceBack elem_copy Faults.none 9 sample_full
          = (Outcome.ok sample_full.Size, v1) ∧
        Vector.PushBack elem_copy Faults.none 9 sample_full = (Outcome.ok (), v1) ∧
        Vector.Emplace elem_copy Faults.none 1 9 sample_full = (Outcome.ok 1, v2) ∧
        Vector.Insert elem_copy Faults.none 1 9 sample_full = (Outcome.ok 1, v2) ∧
        (sample_full.Size < sample_full.Capacity →
          v1.Capacity = sample_full.Capacity ∧ v2.Capacity = sample_full.Capacity) ∧
        (sample_full.Size = sample_full.Capacity → sample_full.Capacity = 0 →
          v1.Capacity = 1 ∧ v2.Capacity = 1) ∧
        (sample_full.Size = sample_full.Capacity → sample_full.Capacity ≠ 0 →
          v1.Capacity = 2 * sample_full.Capacity ∧ v2.Capacity = 2 * sample_full.Capacity)) ∧
    ((Vector.ctor_default : Vector Nat).Valid ∧ 0 ≤ (Vector.ctor_default : Vector Nat).Size ∧
      ∃ v1 v2, Vector.EmplaceBack elem_copy Faults.none 9 Vector.ctor_default
          = (Outcome.ok (Vector.ctor_default : Vector Nat).Size, v1) ∧
        Vector.PushBack elem_copy Faults.none 9 Vector.ctor_default = (Outcome.ok (), v1) ∧
        Vector.Emplace elem_copy Faults.none 0 9 Vector.ctor_default = (Outcome.ok 0, v2) ∧
        Vector.Insert elem_copy Faults.none 0 9 Vector.ctor_default = (Outcome.ok 0, v2) ∧
        ((Vector.ctor_default : Vector Nat).Size < (Vector.ctor_default : Vector Nat).Capacity →
          v1.Capacity = (Vector.ctor_default : Vector Nat).Capacity ∧
          v2.Capacity = (Vector.ctor_default : Vector Nat).Capacity) ∧
        ((Vector.ctor_default : Vector Nat).Size = (Vector.ctor_default : Vector Nat).Capacity →
          (Vector.ctor_default : Vector Nat).Capacity = 0 → v1.Capacity = 1 ∧ v2.Capacity = 1) ∧
        ((Vector.ctor_default : Vector Nat).Size = (Vector.ctor_default : Vector Nat).Capacity →
          (Vector.ctor_default : Vector Nat).Capacity ≠ 0 →
          v1.Capacity = 2 * (Vector.ctor_default : Vector Nat).Capacity ∧
          v2.Capacity = 2 * (Vector.ctor_default : Vector Nat).Capacity)) :=
  ⟨⟨by unfold Vector.Valid; decide, by decide,
      C12_capacity_growth elem_copy sample_spare 9 1 (by unfold Vector.Valid; decide)
        (by decide)⟩,
   ⟨by unfold Vector.Valid; decide, by decide,
      C12_capacity_growth elem_copy sample_full 9 1 (by unfold Vector.Valid; decide)
        (by decide)⟩,
   ⟨by unfold Vector.Valid; decide, by decide,
      C12_capacity_growth elem_copy Vector.ctor_default 9 0 (by unfold Vector.Valid; decide)
        (by decide)⟩⟩

/-- C13: starting from the default-constructed (empty) array, for every `n`
whose byte count `n * sizeof(T)` is at most `PTRDIFF_MAX` and every `n`
values: `Reserve(0)` returns and leaves the array unchanged (capacity 0);
`Reserve(n)`, when the allocation is met, returns with capacity `n`, length 0
and a block requested with exactly `n * sizeof(T)` bytes; and after each of the
first `k ≤ n` `PushBack` calls, none of which throws, the capacity is still
exactly `n`, the block is still the one of `n * sizeof(T)` bytes, the length is
`k` and the contents are the first `k` pushed values in order, so that after
all `n` calls the length is `n` and the contents are the pushed values.  When
`operator new` throws instead, `Reserve(n)` throws the same exception and
leaves the array empty. -/
theorem C13_Reserve_then_PushBack (E : Elem T) (n : Nat) (ys : List T) (hs : 0 < E.sizeof)
    (hreq : n * E.sizeof ≤ PTRDIFF_MAX) (hlen : ys.length = n) :
    Vector.Reserve E Faults.none 0 Vector.ctor_default = (Outcome.ok (), Vector.ctor_default) ∧
    (Vector.ctor_default : Vector T).Capacity = 0 ∧
    (∃ v0, Vector.Reserve E Faults.none n Vector.ctor_default = (Outcome.ok (), v0) ∧
      v0.Capacity = n ∧ v0.Size = 0 ∧ v0.data_.requested_bytes = n * E.sizeof ∧
      (∀ k, k ≤ n →
        ∃ vk, PushBack_all E Faults.none (ys.take k) v0 = (Outcome.ok (), vk) ∧
          vk.Capacity = n ∧ vk.Size = k ∧ vk.elems = (ys.take k).map some ∧
          vk.data_.requested_bytes = n * E.sizeof) ∧
      ∃ vn, PushBack_all E Faults.none ys v0 = (Outcome.ok (), vn) ∧
        vn.Capacity = n ∧ vn.Size = n ∧ vn.elems = ys.map some ∧
        vn.data_.requested_bytes = n * E.sizeof) ∧
    (∀ F e, F.alloc = some e → n ≠ 0 →
      Vector.Reserve E F n Vector.ctor_default = (Outcome.threw e, Vector.ctor_default)) := by
  have hn : n < 2 ^ 64 := by
    have h1 : n ≤ n * E.sizeof := Nat.le_mul_of_pos_right n hs
    unfold PTRDIFF_MAX at hreq
    omega
  have hres : ∃ v0 : Vector T,
      Vector.Reserve E Faults.none n Vector.ctor_default = (Outcome.ok (), v0) ∧
      v0.data_.capacity_ = n ∧ v0.size_ = 0 ∧
      (v0.data_.capacity_ ≠ 0 → v0.data_.buffer_.isSome = true) ∧
      v0.data_.requested_bytes = n * E.sizeof := by
    by_cases hz : n = 0
    · refine ⟨Vector.ctor_default, ?_, ?_, rfl, fun h => absurd rfl h, ?_⟩
      · rw [hz]; exact Vector.Reserve_small E _ 0 _ (le_refl _)
      · rw [hz]; rfl
      · rw [hz, Nat.zero_mul]; rfl
    · obtain ⟨v0, h1, h2, h3, h4, -, -⟩ :=
        Vector.Reserve_grow E n Vector.ctor_default (Nat.pos_of_ne_zero hz)
      have hb := Vector.Reserve_grow_requested_bytes E n Vector.ctor_default
        (Nat.pos_of_ne_zero hz)
      rw [h1, size_t_of_le_PTRDIFF_MAX _ hreq] at hb
      exact ⟨v0, h1, h3, h2, fun _ => h4, hb⟩
  obtain ⟨v0, h1, h2, h3, h4, h5⟩ := hres
  have hel : v0.elems = ([] : List T).map some := by
    unfold Vector.elems
    rw [h3]; rfl
  have hpre : ∀ k, k ≤ n →
      ∃ vk, PushBack_all E Faults.none (ys.take k) v0 = (Outcome.ok (), vk) ∧
        vk.Capacity = n ∧ vk.Size = k ∧ vk.elems = (ys.take k).map some ∧
        vk.data_.requested_bytes = n * E.sizeof := by
    intro k hk
    have hkl : (ys.take k).length = k := by
      rw [List.length_take]; omega
    obtain ⟨vk, p1, p2, p3, p4⟩ := PushBack_all_spare E (ys.take k) v0 []
      (by rw [h3, h2, hkl]; omega) (by rw [h2]; exact hn) h4 hel
    have pb := PushBack_all_spare_requested_bytes E (ys.take k) v0
      (by rw [h3, h2, hkl]; omega) (by rw [h2]; exact hn)
    rw [p1, h5] at pb
    refine ⟨vk, p1, ?_, ?_, ?_, pb⟩
    · show vk.data_.capacity_ = n
      rw [p3, h2]
    · show vk.size_ = k
      rw [p2, h3, hkl]; omega
    · rw [p4, List.nil_append]
  refine ⟨Vector.Reserve_small E _ 0 _ (le_refl _), rfl, ⟨v0, h1, h2, h3, h5, hpre, ?_⟩,
    fun F e ha hz =>
      Vector.Reserve_alloc_throws E F e n Vector.ctor_default ha (Nat.pos_of_ne_zero hz)⟩
  obtain ⟨vn, q1, q2, q3, q4, q5⟩ := hpre n (le_refl _)
  have htake : ys.take n = ys := by
    rw [← hlen]; exact List.take_length ys
  rw [htake] at q1 q4
  exact ⟨vn, q1, q2, q3, q4, q5⟩

/-- C13, instance: `Reserve(3)` followed by pushing 7, 8, 9, for objects of 8
bytes. -/
theorem C13_witness :
    0 < elem_nothrow.sizeof ∧ 3 * elem_nothrow.sizeof ≤ PTRDIFF_MAX ∧
    ([7, 8, 9] : List Nat).length = 3 ∧
    Vector.Reserve elem_nothrow Faults.none 0 Vector.ctor_default
      = (Outcome.ok (), Vector.ctor_default) ∧
    (Vector.ctor_default : Vector Nat).Capacity = 0 ∧
    (∃ v0, Vector.Reserve elem_nothrow Faults.none 3 Vector.ctor_default = (Outcome.ok (), v0) ∧
      v0.Capacity = 3 ∧ v0.Size = 0 ∧ v0.data_.requested_bytes = 3 * elem_nothrow.sizeof ∧
      (∀ k, k ≤ 3 →
        ∃ vk, PushBack_all elem_nothrow Faults.none (([7, 8, 9] : List Nat).take k) v0
            = (Outcome.ok (), vk) ∧
          vk.Capacity = 3 ∧ vk.Size = k ∧
          vk.elems = (([7, 8, 9] : List Nat).take k).map some ∧
          vk.data_.requested_bytes = 3 * elem_nothrow.sizeof) ∧
      ∃ vn, PushBack_all elem_nothrow Faults.none [7, 8, 9] v0 = (Outcome.ok (), vn) ∧
        vn.Capacity = 3 ∧ vn.Size = 3 ∧ vn.elems = ([7, 8, 9] : List Nat).map some ∧
        vn.data_.requested_bytes = 3 * elem_nothrow.sizeof) ∧
    (∀ F e, F.alloc = some e → 3 ≠ 0 →
      Vector.Reserve elem_nothrow F 3 Vector.ctor_default
        = (Outcome.threw e, Vector.ctor_default)) :=
  ⟨by decide, by decide, rfl,
    C13_Reserve_then_PushBack elem_nothrow 3 [7, 8, 9] (by decide) (by decide) rfl⟩

/-- C14: `PopBack` on an array of length 0 returns and leaves the array as it
was (length 0, capacity and contents unchanged); on every valid non-empty
array with contents `xs` it returns and leaves the contents `xs` without its
last entry, in order, the length decreased by one and the capacity unchanged. -/
theorem C14_PopBack (v : Vector T) (xs : List T) (hv : v.Valid)
    (hxs : v.elems = xs.map some) :
    (v.Size = 0 → Vector.PopBack v = (Outcome.ok (), v)) ∧
    (v.Size ≠ 0 →
      ∃ v1, Vector.PopBack v = (Outcome.ok (), v1) ∧
        v1.elems = xs.dropLast.map some ∧
        v1.Size = v.Size - 1 ∧
        v1.Capacity = v.Capacity) := by
  refine ⟨fun h => Vector.PopBack_empty v h, fun h => ?_⟩
  obtain ⟨v1, heq, e2, e3, e4, -⟩ := Vector.PopBack_ok v hv h
  obtain ⟨hlen, hg⟩ := (Vector.elems_eq_iff v xs).mp hxs
  refine ⟨v1, heq, ?_, e2, e3⟩
  rw [List.dropLast_eq_take, Vector.elems_eq_iff]
  have hl : (xs.take (xs.length - 1)).length = xs.length - 1 := by
    rw [List.length_take]; omega
  refine ⟨by rw [e2, hl, hlen], fun j hj => ?_⟩
  rw [hl] at hj
  rw [List.getElem?_take_of_lt hj, e4 j (by omega), hg j (by omega)]

/-- C14, instance: `PopBack` on `[1, 2, 3]` and on the default-constructed
vector. -/
theorem C14_witness :
    (sample_spare.Valid ∧ sample_spare.elems = [1, 2, 3].map some ∧
      (sample_spare.Size = 0 → Vector.PopBack sample_spare = (Outcome.ok (), sample_spare)) ∧
      (sample_spare.Size ≠ 0 →
        ∃ v1, Vector.PopBack sample_spare = (Outcome.ok (), v1) ∧
          v1.elems = ([1, 2, 3] : List Nat).dropLast.map some ∧
          v1.Size = sample_spare.Size - 1 ∧
          v1.Capacity = sample_spare.Capacity)) ∧
    ((Vector.ctor_default : Vector Nat).Valid ∧
      (Vector.ctor_default : Vector Nat).elems = ([] : List Nat).map some ∧
      ((Vector.ctor_default : Vector Nat).Size = 0 →
        Vector.PopBack (Vector.ctor_default : Vector Nat)
          = (Outcome.ok (), Vector.ctor_default)) ∧
      ((Vector.ctor_default : Vector Nat).Size ≠ 0 →
        ∃ v1, Vector.PopBack (Vector.ctor_default : Vector Nat) = (Outcome.ok (), v1) ∧
          v1.elems = ([] : List Nat).dropLast.map some ∧
          v1.Size = (Vector.ctor_default : Vector Nat).Size - 1 ∧
          v1.Capacity = (Vector.ctor_default : Vector Nat).Capacity)) :=
  ⟨⟨by unfold Vector.Valid; decide, by decide,
      C14_PopBack sample_spare [1, 2, 3] (by unfold Vector.Valid; decide) (by decide)⟩,
   ⟨by unfold Vector.Valid; decide, by decide,
      C14_PopBack Vector.ctor_default [] (by unfold Vector.Valid; decide) (by decide)⟩⟩

/-- C15: for every `n` whose byte count `n * sizeof(T)` is at most
`PTRDIFF_MAX` the size constructor `Vector(n)`, when the allocation is met and
no construction throws, yields length `n`, capacity `n` and `n`
value-initialised elements in a block requested with exactly `n * sizeof(T)`
bytes; when `operator new` throws instead, the constructor throws the same
exception.  For every array `other` the copy constructor, when the allocation
is met and no construction throws, yields contents equal to those of `other`,
length `other.length` and capacity exactly `other.length`, whatever the
capacity of `other`.  The operand `other` is passed by reference to const and
is no part of what the constructor writes. -/
theorem C15_constructors (E : Elem T) (n : Nat) (other : Vector T) (hs : 0 < E.sizeof)
    (hreq : n * E.sizeof ≤ PTRDIFF_MAX) :
    (∃ w, Vector.ctor_size E Faults.none n = Except.ok w ∧
      w.Size = n ∧ w.Capacity = n ∧
      w.elems = (List.replicate n E.value_init).map some ∧
      w.data_.requested_bytes = n * E.sizeof ∧
      w.data_.requested_bytes / E.sizeof = w.Capacity) ∧
    (∀ F e, F.alloc = some e → n ≠ 0 → Vector.ctor_size E F n = Except.error e) ∧
    (∃ w, Vector.ctor_copy E Faults.none other = Except.ok w ∧
      w.elems = other.elems ∧ w.Size = other.Size ∧ w.Capacity = other.Size) := by
  refine ⟨?_, fun F e ha hz => Vector.ctor_size_alloc_throws E F e n ha hz, ?_⟩
  · obtain ⟨w, h1, h2, h3, h4⟩ := Vector.ctor_size_ok E n
    have hb : w.data_.requested_bytes = n * E.sizeof := by
      rw [Vector.ctor_size_requested_bytes E n w h1]
      by_cases hz : n = 0
      · rw [hz, Nat.zero_mul]; rfl
      · rw [RawMemory.ctor_requested_bytes E n hz, size_t_of_le_PTRDIFF_MAX _ hreq]
    refine ⟨w, h1, h2, h3, ?_, hb, ?_⟩
    · rw [Vector.elems_eq_iff]
      refine ⟨by rw [h2, List.length_replicate], fun j hj => ?_⟩
      rw [List.length_replicate] at hj
      rw [h4 j hj, List.getElem?_replicate, if_pos hj]
    · show w.data_.requested_bytes / E.sizeof = w.data_.capacity_
      rw [hb, h3, Nat.mul_div_cancel _ hs]
  · obtain ⟨w, h1, h2, h3, h4⟩ := Vector.ctor_copy_ok E other
    exact ⟨w, h1, Vector.elems_congr other w h2 h4, h2, h3⟩

/-- C15, instance: `Vector(3)` and the copy of `[1, 2, 3]` held with capacity
4, for objects of 8 bytes. -/
theorem C15_witness :
    0 < elem_copy.sizeof ∧ 3 * elem_copy.sizeof ≤ PTRDIFF_MAX ∧
    (∃ w, Vector.ctor_size elem_copy Faults.none 3 = Except.ok w ∧
      w.Size = 3 ∧ w.Capacity = 3 ∧
      w.elems = (List.replicate 3 elem_copy.value_init).map some ∧
      w.data_.requested_bytes = 3 * elem_copy.sizeof ∧
      w.data_.requested_bytes / elem_copy.sizeof = w.Capacity) ∧
    (∀ F e, F.alloc = some e → 3 ≠ 0 → Vector.ctor_size elem_copy F 3 = Except.error e) ∧
    (∃ w, Vector.ctor_copy elem_copy Faults.none sample_spare = Except.ok w ∧
      w.elems = sample_spare.elems ∧ w.Size = sample_spare.Size ∧
      w.Capacity = sample_spare.Size) :=
  ⟨by decide, by decide,
    C15_constructors elem_copy 3 sample_spare (by decide) (by decide)⟩

/-- C20: for every valid array with contents `xs`, every offset `i ≤ length`
and every value `x`, when no construction throws, `Insert(i, x)` returns a
position and `Erase` at that position returns and leaves the contents exactly
`xs` and the original length, with a capacity not below the original one;
no assumption is made on spare capacity, so the in-capacity and the
reallocating insertion are both covered. -/
theorem C20_Erase_undoes_Insert (E : Elem T) (v : Vector T) (xs : List T) (i : Nat) (x : T)
    (hv : v.Valid) (hxs : v.elems = xs.map some) (hi : i ≤ v.Size) :
    ∃ p v1 v2, Vector.Insert E Faults.none i x v = (Outcome.ok p, v1) ∧
      Vector.Erase E p v1 = (Outcome.ok p, v2) ∧
      v2.elems = xs.map some ∧
      v2.Size = v.Size ∧
      v.Capacity ≤ v2.Capacity := by
  have hmax : v.data_.capacity_ ≤ 2 ^ 63 - 1 := hv.2.1
  have hle : v.size_ ≤ v.data_.capacity_ := hv.1
  have hi1 : i ≤ v.size_ := hi
  obtain ⟨v1, heq, e2, e3, e4, e5, e6, e7⟩ := Vector.Emplace_ok E i x v hv hi
  obtain ⟨v2, heq2, f2, f3, f5, f6⟩ :=
    Vector.Erase_ok_live E i v1 e4 (by rw [e2]; omega) (by rw [e2]; omega)
  have hsz : v2.size_ = v.size_ := by rw [f2, e2]; omega
  refine ⟨i, v1, v2, heq, heq2, ?_, hsz, ?_⟩
  · rw [← hxs]
    apply Vector.elems_congr v v2 hsz
    intro j hj
    by_cases c : j < i
    · rw [f5 j c, e5 j c]
    · rw [f6 j (by omega) (by rw [e2]; omega), e7 (j + 1) (by omega) (by omega)]
      rfl
  · show v.data_.capacity_ ≤ v2.data_.capacity_
    rw [f3, e3]
    split_ifs <;> omega

/-- C20, instance: inserting 9 at offset 1 and erasing it again, on `[1, 2, 3]`
with capacity 4 and on the full `[1, 2, 3, 4]`. -/
theorem C20_witness :
    (sample_spare.Valid ∧ sample_spare.elems = [1, 2, 3].map some ∧ 1 ≤ sample_spare.Size ∧
      ∃ p v1 v2, Vector.Insert elem_nothrow Faults.none 1 9 sample_spare = (Outcome.ok p, v1) ∧
        Vector.Erase elem_nothrow p v1 = (Outcome.ok p, v2) ∧
        v2.elems = [1, 2, 3].map some ∧
        v2.Size = sample_spare.Size ∧
        sample_spare.Capacity ≤ v2.Capacity) ∧
    (sample_full.Valid ∧ sample_full.elems = [1, 2, 3, 4].map some ∧ 1 ≤ sample_full.Size ∧
      ∃ p v1 v2, Vector.Insert elem_copy Faults.none 1 9 sample_full = (Outcome.ok p, v1) ∧
        Vector.Erase elem_copy p v1 = (Outcome.ok p, v2) ∧
        v2.elems = [1, 2, 3, 4].map some ∧
        v2.Size = sample_full.Size ∧
        sample_full.Capacity ≤ v2.Capacity) :=
  ⟨⟨by unfold Vector.Valid; decide, by decide, by decide,
      C20_Erase_undoes_Insert elem_nothrow sample_spare [1, 2, 3] 1 9
        (by unfold Vector.Valid; decide) (by decide) (by decide)⟩,
   ⟨by unfold Vector.Valid; decide, by decide, by decide,
      C20_Erase_undoes_Insert elem_copy sample_full [1, 2, 3, 4] 1 9
        (by unfold Vector.Valid; decide) (by decide) (by decide)⟩⟩

/-- C16, the code at a failing input: `Emplace` of 9 at offset 2 of the full
vector `[1, 2, 3, 4]` takes the reallocating branch; when the copy of the
element at offset 3, in the run after the index, throws a `std::exception`,
the handler destroys the slots `[0, 2)` of the new block only: the exception
leaves `Emplace` with the old array unchanged, but the new element at slot 2
of the new block is still alive when the block is released. -/
theorem C16_new_element_not_destroyed :
    ¬ (sample_full.Size < sample_full.Capacity) ∧
    (Vector.Emplace elem_copy (faults_copy_at 3) 2 9 sample_full).1
      = Outcome.threw Exn.std_exception ∧
    (Vector.Emplace_realloc elem_copy (faults_copy_at 3) 2 9 sample_full).1
      = some Exn.std_exception ∧
    (Vector.Emplace_realloc elem_copy (faults_copy_at 3) 2 9 sample_full).2.1.elems
      = sample_full.elems ∧
    (Vector.Emplace_realloc elem_copy (faults_copy_at 3) 2 9 sample_full).2.1.Size
      = sample_full.Size ∧
    (Vector.Emplace_realloc elem_copy (faults_copy_at 3) 2 9 sample_full).2.1.Capacity
      = sample_full.Capacity ∧
    (Vector.Emplace_realloc elem_copy (faults_copy_at 3) 2 9 sample_full).2.2.get 0 = none ∧
    (Vector.Emplace_realloc elem_copy (faults_copy_at 3) 2 9 sample_full).2.2.get 1 = none ∧
    (Vector.Emplace_realloc elem_copy (faults_copy_at 3) 2 9 sample_full).2.2.get 2
      = some 9 := by
  decide

/-- C17, refuted as stated: move-assigning the block of `[1, 2, 3]` to a
`RawMemory` that owns the block of `[1, 2, 3, 4]` leaves the source with that
other block (a non-null pointer, capacity 4), not empty. -/
theorem C17_move_assign_leaves_source_owning :
    (RawMemory.assign_move sample_full.data_ sample_spare.data_).1.get 3 = none ∧
    (RawMemory.assign_move sample_full.data_ sample_spare.data_).2.buffer_.isSome = true ∧
    (RawMemory.assign_move sample_full.data_ sample_spare.data_).2.capacity_ = 4 ∧
    (RawMemory.assign_move sample_full.data_ sample_spare.data_).2.get 3 = some 4 ∧
    ¬ ((RawMemory.assign_move sample_full.data_ sample_spare.data_).2.buffer_.isNone = true ∧
      (RawMemory.assign_move sample_full.data_ sample_spare.data_).2.capacity_ = 0) := by
  decide

/-- C17, amended: move construction transfers the pointer and the capacity of
the source to the new block and leaves the source empty (null pointer,
capacity 0); move assignment from a distinct block transfers the pointer and
the capacity of the source to the destination and hands the former pointer and
capacity of the destination to the source, so the source is left empty exactly
when the destination was empty. -/
theorem C17_RawMemory_move (src dst : RawMemory T) :
    ((RawMemory.ctor_move src).1.buffer_ = src.buffer_ ∧
      (RawMemory.ctor_move src).1.capacity_ = src.capacity_ ∧
      (RawMemory.ctor_move src).2.buffer_ = none ∧
      (RawMemory.ctor_move src).2.capacity_ = 0) ∧
    ((RawMemory.assign_move dst src).1.buffer_ = src.buffer_ ∧
      (RawMemory.assign_move dst src).1.capacity_ = src.capacity_ ∧
      (RawMemory.assign_move dst src).2.buffer_ = dst.buffer_ ∧
      (RawMemory.assign_move dst src).2.capacity_ = dst.capacity_ ∧
      (((RawMemory.assign_move dst src).2.buffer_ = none ∧
          (RawMemory.assign_move dst src).2.capacity_ = 0) ↔
        (dst.buffer_ = none ∧ dst.capacity_ = 0))) :=
  ⟨⟨rfl, rfl, rfl, rfl⟩, ⟨rfl, rfl, rfl, rfl, Iff.rfl⟩⟩

/-- C18, the code at a failing input: for objects of 8 bytes,
`RawMemory(2 ^ 61 + 1)` passes `(2 ^ 61 + 1) * 8` reduced modulo `2 ^ 64`, that
is 8 bytes, to `operator new`, room for one element, and records the capacity
`2 ^ 61 + 1`; `Reserve(2 ^ 61 + 1)` on the default-constructed vector installs
that block.  For `n = 0` no allocation is made and the pointer is null. -/
theorem C18_byte_count_wraps :
    (RawMemory.ctor elem_nothrow (2 ^ 61 + 1)).capacity_ = 2 ^ 61 + 1 ∧
    (RawMemory.ctor elem_nothrow (2 ^ 61 + 1)).requested_bytes = 8 ∧
    (RawMemory.ctor elem_nothrow (2 ^ 61 + 1)).requested_bytes
      ≠ (2 ^ 61 + 1) * elem_nothrow.sizeof ∧
    (RawMemory.ctor elem_nothrow (2 ^ 61 + 1)).requested_bytes / elem_nothrow.sizeof
      < (RawMemory.ctor elem_nothrow (2 ^ 61 + 1)).capacity_ ∧
    (Vector.Reserve elem_nothrow Faults.none (2 ^ 61 + 1) Vector.ctor_default).1
      = Outcome.ok () ∧
    (Vector.Reserve elem_nothrow Faults.none (2 ^ 61 + 1) Vector.ctor_default).2.Capacity
      = 2 ^ 61 + 1 ∧
    (Vector.Reserve elem_nothrow Faults.none (2 ^ 61 + 1)
      Vector.ctor_default).2.data_.requested_bytes = 8 ∧
    (RawMemory.ctor elem_nothrow 0).buffer_.isNone = true ∧
    (RawMemory.ctor elem_nothrow 0).capacity_ = 0 := by
  decide

/-- C19, the code at failing inputs: on `[1, 2, 3]` the position `end()`
(offset 3) satisfies the `assert` of `Erase` although offset 3 is no live
element; the call returns and destroys the element at offset 2 instead.  On
the default-constructed vector the position `begin()`, equal to `end()`,
satisfies the `assert` with no element at all, and the decrement takes the
length from 0 to `2 ^ 64 - 1`. -/
theorem C19_assert_admits_end :
    ((3 ≥ sample_spare.begin ∧ 3 ≤ sample_spare.end_) ∧
      ¬ (3 - sample_spare.begin < sample_spare.Size) ∧
      (Vector.Erase elem_nothrow 3 sample_spare).1 = Outcome.ok 3 ∧
      (Vector.Erase elem_nothrow 3 sample_spare).2.elems = [some 1, some 2]) ∧
    ((0 ≥ (Vector.ctor_default : Vector Nat).begin ∧
        0 ≤ (Vector.ctor_default : Vector Nat).end_) ∧
      ¬ (0 - (Vector.ctor_default : Vector Nat).begin < (Vector.ctor_default : Vector Nat).Size) ∧
      (Vector.Erase elem_nothrow 0 Vector.ctor_default).1 = Outcome.ok 0 ∧
      (Vector.ctor_default : Vector Nat).Size = 0 ∧
      (Vector.Erase elem_nothrow 0 Vector.ctor_default).2.Size = 2 ^ 64 - 1) := by
  decide

end Claims

end AdvancedVector
